import Mathlib

/-!
# m61 debugging allocator: embedding of `m61.cc`

The process state of `m61.cc` is its three globals (`gstats`, `activeAlloc`,
`heavyTracker`) together with the memory the allocator reads and writes.

Memory is a typed view: `hdr a` is the `metAlloc` object read through a
`metAlloc*` equal to `a`, and `byte a` is the `char` read through a `char*`
equal to `a`.  The two views are separate maps.  Each write of the allocator
goes to one of them: a header to `hdr`, the marker byte, `memset` and `memcpy`
to `byte`.  What the client program stores into a payload can be read back
through either view, and the client actions record both: `store` is the
store of one character, and `storeHdr` says that the bytes the client has
stored at an address inside a payload read back as a given `metAlloc` object
(`m61_free` reads such an object in front of a pointer that lies inside or at
the end of that payload).  A header read that overlaps a live header or the
marker byte only in part is outside the embedding; statements about reachable
states speak of `hdr` at the headers of live blocks and at whole images
inside payloads.

All `size_t`, `uintptr_t` and `unsigned long long` values are natural numbers
below `2^64`; every arithmetic step of the source is followed by an explicit
reduction modulo `2^64`.  `int` values are integers obtained by `toInt32`.

`sizeof(metAlloc)` comes from the header file `m61.hh`, which declares the
type; it is the parameter `hsz` of every operation.  The base allocator
(`base_malloc`, `base_free`) is external: each allocating call receives the
answer of the base allocator as a function `base_malloc` from the requested
byte count to the returned raw address (`0` is `nullptr`).  `base_free` does
not change the tracker state or the memory contents.
-/

namespace M61

/-- The largest `size_t` value. -/
def SIZE_MAX : Nat := 2 ^ 64 - 1

/-- Reduction of an unsigned 64-bit result. -/
def wrap (n : Nat) : Nat := n % 2 ^ 64

/-- Unsigned 64-bit subtraction `a - b`. -/
def wsub (a b : Nat) : Nat :=
  if b % 2 ^ 64 ≤ a % 2 ^ 64 then a % 2 ^ 64 - b % 2 ^ 64
  else 2 ^ 64 - (b % 2 ^ 64 - a % 2 ^ 64)

/-- The cast `(int) n` of an unsigned value: low 32 bits, two-complement. -/
def toInt32 (n : Nat) : Int :=
  if n % 2 ^ 32 < 2 ^ 31 then (n % 2 ^ 32 : Nat) else (n % 2 ^ 32 : Nat) - 2 ^ 32

/-- The conversion of an `int` to `size_t`. -/
def ofInt (i : Int) : Nat := Int.toNat (i % 2 ^ 64)

/-- The value of `magic_key`, the character `*`. -/
def magic_key : Nat := 42

/-- The header `metAlloc` placed before every payload
(`{sz, everAllocated, allocated, file, line}`). -/
structure metAlloc where
  sz : Nat
  everAllocated : Bool
  allocated : Bool
  file : String
  line : Int
  deriving DecidableEq, Repr

/-- The statistics record `m61_statistics`. -/
structure m61_statistics where
  nactive : Nat
  active_size : Nat
  ntotal : Nat
  total_size : Nat
  nfail : Nat
  fail_size : Nat
  heap_min : Nat
  heap_max : Nat
  deriving DecidableEq, Repr

/-- The globals of `m61.cc` and the memory. -/
structure State where
  gstats : m61_statistics
  activeAlloc : List Nat
  heavyTracker : List (String × Nat)
  hdr : Nat → metAlloc
  byte : Nat → Nat

/-- Memory that was never written. -/
def zeroHdr : metAlloc := ⟨0, false, false, "", 0⟩

/-- The state at process start: `gstats = {0, 0, 0, 0, 0, 0, 0, 0}`, empty
containers, zeroed memory. -/
def init : State :=
  { gstats := ⟨0, 0, 0, 0, 0, 0, 0, 0⟩
    activeAlloc := []
    heavyTracker := []
    hdr := fun _ => zeroHdr
    byte := fun _ => 0 }

/-- The messages of the four kinds of `MEMORY BUG` line. -/
inductive MemoryBug where
  | notInHeap
  | notAllocated
  | doubleFree
  | wildWrite
  deriving DecidableEq, Repr

/-- One line `file:line: ptr is N bytes inside a M byte region allocated here`. -/
structure Inside where
  file : String
  line : Int
  ptr : Nat
  bytesInside : Int
  allocSize : Int
  deriving DecidableEq, Repr

/-- Operations of the source whose behaviour C++ leaves undefined. -/
inductive Undefined where
  | eraseOutOfRange
  | divideByZero
  deriving DecidableEq, Repr

/-- How a call ends: it returns `v` in state `w`, or it prints a `MEMORY BUG`
line for the call at `file:line` on `ptr` (followed by the `inside` lines) and
calls `abort()`, or it executes an undefined operation. -/
inductive Outcome (α : Type) where
  | ret (w : State) (v : α)
  | abort (bug : MemoryBug) (file : String) (line : Int) (ptr : Nat) (inside : List Inside)
  | undefined (u : Undefined)

/-- The lookup `heavyTracker.find(key)`: the total stored for `key`, if any. -/
def heavyFind (key : String) : List (String × Nat) → Option Nat
  | [] => none
  | (k, v) :: rest => if k = key then some v else heavyFind key rest

/-- Lines 72-76: add `sz` to the entry of `fileLine`, inserting it if absent. -/
def heavyAdd (fileLine : String) (sz : Nat) (t : List (String × Nat)) : List (String × Nat) :=
  if (heavyFind fileLine t).isSome then
    t.map (fun kv => if kv.1 = fileLine then (kv.1, wrap (kv.2 + sz)) else kv)
  else
    t ++ [(fileLine, sz)]

/-- The key `fileName + ":" + to_string(line)`. -/
def fileLine (file : String) (line : Int) : String :=
  file ++ ":" ++ toString line

/-- The function `m61_malloc(sz, file, line)`; the second component is the returned pointer. -/
def m61_malloc (hsz : Nat) (base_malloc : Nat → Nat) (w : State) (sz : Nat)
    (file : String) (line : Int) : State × Nat :=
  let prePtr := base_malloc (wrap (wrap (sz + hsz) + 1))
  if prePtr = 0 ∨ hsz > SIZE_MAX - sz then
    ({ w with gstats := { w.gstats with
          nfail := wrap (w.gstats.nfail + 1)
          fail_size := wrap (w.gstats.fail_size + sz) } }, 0)
  else
    let meta_ptr := prePtr
    let metadata : metAlloc := ⟨sz, true, true, file, line⟩
    let ptr := wrap (meta_ptr + hsz)
    let magicPtr := wrap (ptr + sz)
    let top := wsub (wrap (ptr + sz)) 1
    let g0 := w.gstats
    let g1 := if g0.ntotal = 0 then { g0 with heap_min := ptr, heap_max := top } else g0
    let g2 := if ptr < g1.heap_min then { g1 with heap_min := ptr } else g1
    let g3 := if top > g2.heap_max then { g2 with heap_max := top } else g2
    let g4 := { g3 with
      ntotal := wrap (g3.ntotal + 1)
      nactive := wrap (g3.nactive + 1)
      total_size := wrap (g3.total_size + sz)
      active_size := wrap (g3.active_size + sz) }
    ({ gstats := g4
       activeAlloc := w.activeAlloc ++ [ptr]
       heavyTracker := heavyAdd (fileLine file line) sz w.heavyTracker
       hdr := fun a => if a = meta_ptr then metadata else w.hdr a
       byte := fun a => if a = magicPtr then magic_key else w.byte a }, ptr)

/-- The entries visited by `for (int i = 0; i < (int) activeAlloc.size(); i++)`. -/
def scanned (l : List Nat) : List Nat :=
  l.take (Int.toNat (toInt32 l.length))

/-- Lines 97-102: the loop that saves the index of `ptr`, started at position `i`
with the value `index` saved so far. -/
def findIndex (ptr : Nat) : List Nat → Nat → Int → Int
  | [], _, index => index
  | a :: rest, i, index => findIndex ptr rest (i + 1) (if a = ptr then (i : Int) else index)

/-- Lines 107-120: the lines printed for the blocks whose range holds `ptr`. -/
def insideReport (hsz : Nat) (w : State) (ptr : Nat) (file : String) : List Nat → List Inside
  | [] => []
  | a :: rest =>
    let begin_ := wsub a hsz
    let end_ := wrap (a + (w.hdr begin_).sz)
    let bytesInside := toInt32 (wsub ptr a)
    let allocSize := toInt32 (wsub (wsub end_ begin_) hsz)
    if ptr ≥ begin_ ∧ ptr ≤ end_ then
      ⟨file, (w.hdr begin_).line, ptr, bytesInside, allocSize⟩ :: insideReport hsz w ptr file rest
    else
      insideReport hsz w ptr file rest

/-- Lines 131-144: does the loop reach its `abort()`. -/
def insideOther (hsz : Nat) (w : State) (ptr : Nat) : List Nat → Bool
  | [] => false
  | a :: rest =>
    let begin_ := wsub a hsz
    let end_ := wrap (a + (w.hdr begin_).sz)
    if ptr > begin_ ∧ ptr < end_ ∧ ptr ≠ wrap (begin_ + hsz) then true
    else insideOther hsz w ptr rest

/-- The call `activeAlloc.erase(activeAlloc.begin() + index)`; undefined outside the vector. -/
def eraseAt (l : List Nat) (index : Int) : Option (List Nat) :=
  if 0 ≤ index ∧ index < l.length then some (l.eraseIdx index.toNat) else none

/-- The function `m61_free(ptr, file, line)`. -/
def m61_free (hsz : Nat) (w : State) (ptr : Nat) (file : String) (line : Int) : Outcome Unit :=
  if ptr = 0 then .ret w ()
  else if ptr < w.gstats.heap_min ∨ ptr > w.gstats.heap_max then
    .abort .notInHeap file line ptr []
  else
    let meta_ptr := wsub ptr hsz
    let checkBoundary := wrap (ptr + (w.hdr meta_ptr).sz)
    let index := findIndex ptr (scanned w.activeAlloc) 0 (-1)
    if (w.hdr meta_ptr).everAllocated = false then
      .abort .notAllocated file line ptr (insideReport hsz w ptr file (scanned w.activeAlloc))
    else if (w.hdr meta_ptr).allocated = false then
      .abort .doubleFree file line ptr []
    else if w.byte checkBoundary ≠ magic_key then
      .abort .wildWrite file line ptr []
    else if insideOther hsz w ptr (scanned w.activeAlloc) then
      .abort .notAllocated file line ptr []
    else
      match eraseAt w.activeAlloc index with
      | none => .undefined .eraseOutOfRange
      | some l =>
        .ret { w with
          gstats := { w.gstats with
            nactive := wsub w.gstats.nactive 1
            active_size := wsub w.gstats.active_size (w.hdr meta_ptr).sz }
          hdr := fun a => if a = meta_ptr then { w.hdr meta_ptr with allocated := false } else w.hdr a
          activeAlloc := l } ()

/-- The call `memset(ptr, 0, n)` on the character view. -/
def memset0 (w : State) (ptr n : Nat) : State :=
  { w with byte := fun a => if wsub a ptr < n then 0 else w.byte a }

/-- The call `memcpy(dst, src, n)` on the character view. -/
def memcpy (w : State) (dst src n : Nat) : State :=
  { w with byte := fun a => if wsub a dst < n then w.byte (wrap (src + wsub a dst)) else w.byte a }

/-- The function `m61_calloc(nmemb, sz, file, line)`. -/
def m61_calloc (hsz : Nat) (base_malloc : Nat → Nat) (w : State) (nmemb sz : Nat)
    (file : String) (line : Int) : Outcome Nat :=
  if nmemb = 0 then .undefined .divideByZero
  else if sz > SIZE_MAX / nmemb then
    .ret { w with gstats := { w.gstats with
          nfail := wrap (w.gstats.nfail + 1)
          fail_size := wrap (w.gstats.fail_size + wrap (nmemb * sz)) } } 0
  else
    let r := m61_malloc hsz base_malloc w (wrap (nmemb * sz)) file line
    if r.2 ≠ 0 then .ret (memset0 r.1 r.2 (wrap (nmemb * sz))) r.2
    else .ret r.1 0

/-- The function `m61_realloc(ptr, sz, file, line)`. -/
def m61_realloc (hsz : Nat) (base_malloc : Nat → Nat) (w : State) (ptr sz : Nat)
    (file : String) (line : Int) : Outcome Nat :=
  if sz = 0 then
    match m61_free hsz w ptr file line with
    | .ret w1 _ => .ret w1 0
    | .abort b f l p i => .abort b f l p i
    | .undefined u => .undefined u
  else
    let r := m61_malloc hsz base_malloc w sz file line
    let newPtr := r.2
    if ptr = 0 then .ret r.1 newPtr
    else
      -- `(metAlloc*) (uintptr_t) ptr - sizeof(metAlloc)` steps back by
      -- `sizeof(metAlloc)` objects of `sizeof(metAlloc)` bytes each
      let meta_ptr := wsub ptr (wrap (hsz * hsz))
      let ptrSize := toInt32 (r.1.hdr meta_ptr).sz
      let byteSize := min (toInt32 sz) ptrSize
      let w2 := memcpy r.1 newPtr ptr (ofInt byteSize)
      match m61_free hsz w2 ptr file line with
      | .ret w3 _ => .ret w3 newPtr
      | .abort b f l p i => .abort b f l p i
      | .undefined u => .undefined u

/-- The character view after the client stores `val` at `addr`. -/
def store (w : State) (addr val : Nat) : State :=
  { w with byte := fun a => if a = addr then val else w.byte a }

/-- The header view once the bytes stored at `addr .. addr + sizeof(metAlloc)`
read back as the object `m`. -/
def storeHdr (w : State) (addr : Nat) (m : metAlloc) : State :=
  { w with hdr := fun a => if a = addr then m else w.hdr a }

/-- The state in which a call returned, if it returned. -/
def Outcome.state? {α : Type} : Outcome α → Option State
  | .ret w _ => some w
  | .abort _ _ _ _ _ => none
  | .undefined _ => none

/-- One action of the client program: a call of the interface, with the answer
the base allocator gives during it, or a store into memory (one character, or
the bytes of a whole header image). -/
inductive Call where
  | malloc (base_malloc : Nat → Nat) (sz : Nat) (file : String) (line : Int)
  | free (ptr : Nat) (file : String) (line : Int)
  | calloc (base_malloc : Nat → Nat) (nmemb sz : Nat) (file : String) (line : Int)
  | realloc (base_malloc : Nat → Nat) (ptr sz : Nat) (file : String) (line : Int)
  | store (addr val : Nat)
  | storeHdr (addr : Nat) (m : metAlloc)

/-- The state after one action, if the process survives it. -/
def step (hsz : Nat) (w : State) : Call → Option State
  | .malloc b sz f l => some (m61_malloc hsz b w sz f l).1
  | .free p f l => (m61_free hsz w p f l).state?
  | .calloc b n sz f l => (m61_calloc hsz b w n sz f l).state?
  | .realloc b p sz f l => (m61_realloc hsz b w p sz f l).state?
  | .store a v => some (store w a v)
  | .storeHdr a m => some (storeHdr w a m)

/-- The state after a sequence of actions, if the process survives all of them. -/
def run (hsz : Nat) : State → List Call → Option State
  | w, [] => some w
  | w, c :: cs => (step hsz w c).bind (fun w1 => run hsz w1 cs)

/-- The arguments of one `m61_malloc` call and the base allocator answer. -/
structure Alloc where
  base_malloc : Nat → Nat
  sz : Nat
  file : String
  line : Int

/-- The raw address the base allocator returns during the call `a`. -/
def Alloc.raw (hsz : Nat) (a : Alloc) : Nat :=
  a.base_malloc (wrap (wrap (a.sz + hsz) + 1))

/-- The state after a sequence of `m61_malloc` calls. -/
def mallocs (hsz : Nat) : State → List Alloc → State
  | w, [] => w
  | w, a :: as => mallocs hsz (m61_malloc hsz a.base_malloc w a.sz a.file a.line).1 as

/-- A base allocator that answers every request with address `4096`. -/
def base4096 : Nat → Nat := fun _ => 4096

/-- A base allocator that answers every request with address `8192`. -/
def base8192 : Nat → Nat := fun _ => 8192

/-- A base allocator that is exhausted. -/
def baseNull : Nat → Nat := fun _ => 0

/-- A base allocator that serves a request of zero bytes from address `4096`
and refuses every other request. -/
def baseZeroOnly : Nat → Nat := fun n => if n = 0 then 4096 else 0

/-- The state after `m61_malloc(0, "a.cc", 1)` at process start. -/
def afterMalloc0 : State := (m61_malloc 32 base4096 init 0 "a.cc" 1).1

/-- The state after `m61_malloc(8, "a.cc", 1)` at process start. -/
def afterMalloc8 : State := (m61_malloc 32 base4096 init 8 "a.cc" 1).1

/-- The state after `m61_free(4128, "a.cc", 2)` in `afterMalloc8`. -/
def afterFree8 : State :=
  match m61_free 32 afterMalloc8 4128 "a.cc" 2 with
  | .ret w _ => w
  | _ => afterMalloc8

/-- A later `m61_malloc(16, "b.cc", 3)` served from raw address `8192`. -/
def laterAlloc : Alloc := ⟨base8192, 16, "b.cc", 3⟩

/-- The part of `gstats` that the heap-range check of `m61_free` relies on:
`ntotal` counts `n` successful allocations, and the bounds are still zero while
there was none. -/
def CountInv (n : Nat) (w : State) : Prop :=
  w.gstats.ntotal = n % 2 ^ 64 ∧ (n = 0 → w.gstats.heap_min = 0 ∧ w.gstats.heap_max = 0)

/-- The outcome `o` with returned value `v` in place of its own. -/
def Outcome.returning {α β : Type} (o : Outcome α) (v : β) : Outcome β :=
  match o with
  | .ret w _ => .ret w v
  | .abort b f l p i => .abort b f l p i
  | .undefined u => .undefined u

/-- The state after `m61_malloc(8, "a.cc", 1)` and `m61_malloc(8, "a.cc", 2)`,
served from raw addresses `4096` and `8192`. -/
def afterTwoMallocs : State := (m61_malloc 32 base8192 afterMalloc8 8 "a.cc" 2).1

/-- The cumulative total recorded for the call site `key` (`0` when the table
has no entry for it). -/
def siteTotal (key : String) (t : List (String × Nat)) : Nat :=
  (heavyFind key t).getD 0

/-- The state after `m61_malloc(50, "test046.cc", 15)` at process start. -/
def afterMalloc50 : State := (m61_malloc 32 base4096 init 50 "test046.cc" 15).1

/-- The state after `m61_realloc(4128, 51, "test046.cc", 22)` in `afterMalloc50`,
served from raw address `8192`. -/
def afterRealloc51 : State :=
  match m61_realloc 32 base8192 afterMalloc50 4128 51 "test046.cc" 22 with
  | .ret w _ => w
  | _ => afterMalloc50

/-- The answer `raw` of the base allocator is a machine word and, unless it is
`nullptr`, not the raw address of a block that is still live.  (A base
allocator that hands out disjoint blocks satisfies this.) -/
def BaseFresh (hsz : Nat) (w : State) (raw : Nat) : Prop :=
  raw < 2 ^ 64 ∧ (raw ≠ 0 → ∀ a ∈ w.activeAlloc, raw ≠ wsub a hsz)

/-- A well-behaved action in state `w`: arguments are machine words, the base
allocator answers with a fresh block, and the client stores only into the
payload of a live block.  Such a store is one character, or
`sizeof(metAlloc)` bytes that form a header image; the image lies wholly
inside the payload, so it is not at the header of a live block. -/
def Call.wf (hsz : Nat) (w : State) : Call → Prop
  | .malloc b sz _ _ => sz < 2 ^ 64 ∧ BaseFresh hsz w (b (wrap (wrap (sz + hsz) + 1)))
  | .free p _ _ => p < 2 ^ 64
  | .calloc b n sz _ _ =>
    n < 2 ^ 64 ∧ sz < 2 ^ 64 ∧ BaseFresh hsz w (b (wrap (wrap (wrap (n * sz) + hsz) + 1)))
  | .realloc b p sz _ _ =>
    p < 2 ^ 64 ∧ sz < 2 ^ 64 ∧ BaseFresh hsz w (b (wrap (wrap (sz + hsz) + 1)))
  | .store a _ => ∃ p ∈ w.activeAlloc, p ≤ a ∧ a < p + (w.hdr (wsub p hsz)).sz
  | .storeHdr a _ =>
    (∃ p ∈ w.activeAlloc, p ≤ a ∧ a + hsz ≤ p + (w.hdr (wsub p hsz)).sz) ∧
    ∀ q ∈ w.activeAlloc, a ≠ wsub q hsz

/-- The states reached from process start by well-behaved actions that the
process survives. -/
inductive Reachable (hsz : Nat) : State → Prop where
  | start : Reachable hsz init
  | next (w w1 : State) (c : Call) :
      Reachable hsz w → c.wf hsz w → step hsz w c = some w1 → Reachable hsz w1

/-- The states `w` and `w1` differ at most in the character view of memory and
in the failure counters `nfail` and `fail_size`. -/
def SameTracking (w w1 : State) : Prop :=
  w1.activeAlloc = w.activeAlloc ∧ w1.heavyTracker = w.heavyTracker ∧ w1.hdr = w.hdr ∧
  w1.gstats.nactive = w.gstats.nactive ∧ w1.gstats.active_size = w.gstats.active_size ∧
  w1.gstats.ntotal = w.gstats.ntotal ∧ w1.gstats.total_size = w.gstats.total_size ∧
  w1.gstats.heap_min = w.gstats.heap_min ∧ w1.gstats.heap_max = w.gstats.heap_max

/-- A property of states that `m61_malloc`, a returning `m61_free`, writes to
the character view, updates of the failure counters and header images stored
away from the headers of live blocks all preserve. -/
structure Preserved (hsz : Nat) (P : State → Prop) : Prop where
  malloc : ∀ (w : State) (b : Nat → Nat) (sz : Nat) (f : String) (l : Int),
    P w → sz < 2 ^ 64 → BaseFresh hsz w (b (wrap (wrap (sz + hsz) + 1))) →
    P (m61_malloc hsz b w sz f l).1
  free : ∀ (w : State) (p : Nat) (f : String) (l : Int) (w1 : State),
    P w → p < 2 ^ 64 → m61_free hsz w p f l = .ret w1 () → P w1
  frame : ∀ (w w1 : State), P w → SameTracking w w1 → P w1
  image : ∀ (w : State) (a : Nat) (m : metAlloc),
    P w → (∀ q ∈ w.activeAlloc, a ≠ wsub q hsz) → P (storeHdr w a m)

/-- The state after `m61_calloc(8, 8, "a.cc", 1)` at process start: the block
`4128` of 64 zeroed bytes. -/
def afterCalloc64 : State :=
  match m61_calloc 32 base4096 init 8 8 "a.cc" 1 with
  | .ret w _ => w
  | _ => init

/-- The state after `m61_malloc(200, "a.cc", 1)` and `m61_malloc(8, "a.cc", 2)`,
served from raw addresses `4096` and `8192`: the blocks `4128` and `8224`. -/
def afterMalloc200 : State :=
  (m61_malloc 32 base8192 (m61_malloc 32 base4096 init 200 "a.cc" 1).1 8 "a.cc" 2).1

/-- The state `afterMalloc200` after the client has stored `1` into the bytes
`4304` and `4305` of its first payload (`4128 .. 4327`, otherwise zero).  With
`metAlloc` laid out as `{sz, everAllocated, allocated, file, line}` in 32
bytes, the 32 bytes at `4296 .. 4327` then read back as a header with
`sz == 0`, `everAllocated == true` and `allocated == true`. -/
def overlaid : State :=
  storeHdr (store (store afterMalloc200 4304 1) 4305 1) 4296 ⟨0, true, true, "", 0⟩

/-- The sum of all call-site totals. -/
def tableSum (t : List (String × Nat)) : Nat := (t.map Prod.snd).sum

/-- The call-site table has one entry per key, and its totals add up to
`total_size` modulo `2^64`. -/
def TableInv (w : State) : Prop :=
  (w.heavyTracker.map Prod.fst).Nodup ∧ tableSum w.heavyTracker % 2 ^ 64 = w.gstats.total_size

/-- The state after `m61_malloc(2^63, "a.cc", 1)`, `m61_free` of the returned
block `4128`, and `m61_malloc(2^63, "b.cc", 3)`, both blocks served from raw
address `4096`. -/
def wrappedTotals : State :=
  match m61_free 32 (m61_malloc 32 base4096 init (2 ^ 63) "a.cc" 1).1 4128 "a.cc" 2 with
  | .ret w _ => (m61_malloc 32 base4096 w (2 ^ 63) "b.cc" 3).1
  | _ => init

/-- The state after `m61_free(4128, "a.cc", 2)` of the only block of `2^63` bytes. -/
def afterBigFree : State :=
  match m61_free 32 (m61_malloc 32 base4096 init (2 ^ 63) "a.cc" 1).1 4128 "a.cc" 2 with
  | .ret w _ => w
  | _ => init

/-- The function `m61_get_statistics(stats)`: the state is left as it is and
`*stats` receives a copy of `gstats`. -/
def m61_get_statistics (w : State) : State × m61_statistics := (w, w.gstats)

/-- One call of a scenario made of allocations and frees only. -/
inductive Event where
  | alloc (a : Alloc)
  | free (ptr : Nat) (file : String) (line : Int)

/-- The sizes requested by the allocations of a scenario, in order. -/
def allocSizes : List Event → List Nat
  | [] => []
  | .alloc a :: es => a.sz :: allocSizes es
  | .free _ _ _ :: es => allocSizes es

/-- The number of frees of a scenario. -/
def freeCount : List Event → Nat
  | [] => 0
  | .alloc _ :: es => freeCount es
  | .free _ _ _ :: es => freeCount es + 1

/-- Remove the first block with payload pointer `p` from a list of live blocks
`(pointer, size)`. -/
def removeBlock (p : Nat) : List (Nat × Nat) → List (Nat × Nat)
  | [] => []
  | b :: rest => if b.1 = p then rest else b :: removeBlock p rest

/-- Run a scenario from state `w` with live blocks `live`, keeping the list of
blocks `(pointer, size)` allocated and not yet freed.  The result is `none`
unless every allocation succeeds with a block at a 64-bit raw address whose
pointer is not that of a live block, and every free is applied to the pointer
of a live block and returns (the release case). -/
def track (hsz : Nat) : State → List (Nat × Nat) → List Event → Option (State × List (Nat × Nat))
  | w, live, [] => some (w, live)
  | w, live, .alloc a :: es =>
    if (m61_malloc hsz a.base_malloc w a.sz a.file a.line).2 ≠ 0 ∧ a.raw hsz < 2 ^ 64 ∧
        (m61_malloc hsz a.base_malloc w a.sz a.file a.line).2 ∉ live.map Prod.fst then
      track hsz (m61_malloc hsz a.base_malloc w a.sz a.file a.line).1
        (live ++ [((m61_malloc hsz a.base_malloc w a.sz a.file a.line).2, a.sz)]) es
    else none
  | w, live, .free p f l :: es =>
    if p ∈ live.map Prod.fst then
      match m61_free hsz w p f l with
      | .ret w1 _ => track hsz w1 (removeBlock p live) es
      | _ => none
    else none

/-- The sum of the sizes of a list of live blocks. -/
def liveBytes (live : List (Nat × Nat)) : Nat := (live.map Prod.snd).sum

/-- The statistics agree with a scenario of `n` allocations totalling `s` bytes
and with the live blocks `live`, whose sizes are the ones in their headers. -/
def Ledger (hsz : Nat) (w : State) (live : List (Nat × Nat)) (n s : Nat) : Prop :=
  w.gstats.ntotal = n % 2 ^ 64 ∧
  w.gstats.total_size = s % 2 ^ 64 ∧
  w.gstats.nactive = live.length % 2 ^ 64 ∧
  w.gstats.active_size = liveBytes live % 2 ^ 64 ∧
  ∀ b ∈ live, b.1 ≠ 0 ∧ b.1 < 2 ^ 64 ∧ (w.hdr (wsub b.1 hsz)).sz = b.2

/-- A scenario: allocate `8` and `16` bytes (raw addresses `4096` and `8192`),
then free the first block. -/
def scenario : List Event :=
  [.alloc ⟨base4096, 8, "a.cc", 1⟩, .alloc ⟨base8192, 16, "a.cc", 2⟩, .free 4128 "a.cc" 3]

/-- The state at the end of `scenario`. -/
def afterScenario : State :=
  match track 32 init [] scenario with
  | some r => r.1
  | none => init

/-- Rounding of a rational to an integer, to nearest, ties to even. -/
def roundEven (m : ℚ) : ℤ :=
  if m - ⌊m⌋ < 1 / 2 then ⌊m⌋
  else if 1 / 2 < m - ⌊m⌋ then ⌊m⌋ + 1
  else if ⌊m⌋ % 2 = 0 then ⌊m⌋ else ⌊m⌋ + 1

/-- The binary64 value nearest to a nonnegative rational `q` (53-bit
significand, round to nearest, ties to even).  The exponent range is not
modelled: the values that occur lie between `2^-58` and `2^71`. -/
def rne (q : ℚ) : ℚ :=
  if q ≤ 0 then 0
  else (roundEven (q / 2 ^ (Int.log 2 q - 52)) : ℚ) * 2 ^ (Int.log 2 q - 52)

/-- The values of type `double` that the report computes: not-a-number,
positive infinity, or a finite nonnegative value (negative values do not
occur). -/
inductive Dbl where
  | nan
  | inf
  | fin (q : ℚ)
  deriving DecidableEq

/-- The conversion `(double) n` of an unsigned 64-bit integer. -/
def Dbl.ofNat (n : Nat) : Dbl := .fin (rne n)

/-- The product of two values of type `double`. -/
def Dbl.mul : Dbl → Dbl → Dbl
  | .fin a, .fin b => .fin (rne (a * b))
  | .inf, .fin b => if b = 0 then .nan else .inf
  | .fin a, .inf => if a = 0 then .nan else .inf
  | .inf, .inf => .inf
  | _, _ => .nan

/-- The quotient of two values of type `double`: a zero divisor gives
not-a-number for a zero dividend and infinity otherwise, without a trap. -/
def Dbl.div : Dbl → Dbl → Dbl
  | .fin a, .fin b => if b = 0 then (if a = 0 then .nan else .inf) else .fin (rne (a / b))
  | .fin _, .inf => .fin 0
  | .inf, .fin _ => .inf
  | _, _ => .nan

/-- The comparison `d > c` of a `double` with a finite constant; it is false
for not-a-number. -/
def Dbl.gt (d : Dbl) (c : ℚ) : Bool :=
  match d with
  | .nan => false
  | .inf => true
  | .fin q => decide (c < q)

/-- The comparator `compHitters(a, b)`: `a.second > b.second`. -/
def compHitters (a b : String × Nat) : Bool := decide (a.2 > b.2)

/-- The order that `std::sort` with `compHitters` establishes: `b` is not
strictly before `a`. -/
def hitterOrder (a b : String × Nat) : Prop := compHitters b a = false

instance hitterOrderDecidable : DecidableRel hitterOrder :=
  fun a b => inferInstanceAs (Decidable (compHitters b a = false))

/-- Of two table entries, one is not strictly before the other. -/
instance hitterOrderTotal : IsTotal (String × Nat) hitterOrder :=
  ⟨fun a b => by
    unfold hitterOrder compHitters
    simp only [gt_iff_lt, decide_eq_false_iff_not, not_lt]
    omega⟩

instance hitterOrderTrans : IsTrans (String × Nat) hitterOrder :=
  ⟨fun a b c => by
    unfold hitterOrder compHitters
    simp only [gt_iff_lt, decide_eq_false_iff_not, not_lt]
    omega⟩

/-- The vector `fileLines` after `sort(fileLines.begin(), fileLines.end(),
compHitters)`.  The order of entries with equal totals, which `std::sort` and
the iteration order of `heavyTracker` leave open, is the one of the table. -/
def sortHitters (t : List (String × Nat)) : List (String × Nat) :=
  t.insertionSort hitterOrder

/-- The elements visited by a loop `for (int i = 0; i < (int) v.size(); i++)`. -/
def intLoop {α : Type} (l : List α) : List α :=
  l.take (Int.toNat (toInt32 l.length))

/-- The value `100 * (double) second / gstats.total_size` of line 217. -/
def percentOf (second total_size : Nat) : Dbl :=
  Dbl.div (Dbl.mul (.fin 100) (Dbl.ofNat second)) (Dbl.ofNat total_size)

/-- One candidate line of the heavy-hitter report: the site, the byte count as
printed through `(int)` and `%i`, and the percentage. -/
structure Hitter where
  site : String
  bytes : Int
  percent : Dbl
  deriving DecidableEq

/-- The values computed by the iterations of the loop of lines 216-222, before
the test `percent > 5`. -/
def hitterLines (w : State) : List Hitter :=
  (intLoop (sortHitters w.heavyTracker)).map
    (fun e => ⟨e.1, toInt32 e.2, percentOf e.2 w.gstats.total_size⟩)

/-- The function `m61_print_heavy_hitter_report()`: the lines it prints. -/
def m61_print_heavy_hitter_report (w : State) : List Hitter :=
  (hitterLines w).filter (fun h => h.percent.gt 5)

/-- The state after `m61_malloc(2^31, "a.cc", 1)` at process start. -/
def bigSite : State := (m61_malloc 32 base4096 init (2 ^ 31) "a.cc" 1).1

/-- The state after `m61_malloc(400000000000003, "a.cc", 1)`, `m61_free` of the
returned block `4128`, and `m61_malloc(7600000000000057, "b.cc", 3)`: the site
`a.cc:1` holds exactly one twentieth of `total_size`. -/
def exactFive : State :=
  match m61_free 32 (m61_malloc 32 base4096 init 400000000000003 "a.cc" 1).1 4128 "a.cc" 2 with
  | .ret w _ => (m61_malloc 32 base4096 w 7600000000000057 "b.cc" 3).1
  | _ => init

/-! ## Arithmetic and call-site table lemmas -/

theorem wrap_of_lt {n : Nat} (h : n < 2 ^ 64) : wrap n = n := Nat.mod_eq_of_lt h

theorem wrap_lt (n : Nat) : wrap n < 2 ^ 64 := Nat.mod_lt _ (by norm_num)

theorem wsub_add_cancel {a b : Nat} (ha : a < 2 ^ 64) : wsub (wrap (a + b)) b = a := by
  unfold wsub wrap
  split_ifs <;> omega

theorem heavyFind_cons (k k0 : String) (v0 : Nat) (rest : List (String × Nat)) :
    heavyFind k ((k0, v0) :: rest) = if k0 = k then some v0 else heavyFind k rest := rfl

theorem heavyFind_map_bump (key : String) (sz : Nat) (k : String) (t : List (String × Nat)) :
    heavyFind k (t.map (fun kv => if kv.1 = key then (kv.1, wrap (kv.2 + sz)) else kv)) =
      if k = key then (heavyFind k t).map (fun v => wrap (v + sz)) else heavyFind k t := by
  induction t with
  | nil => simp [heavyFind]
  | cons e rest ih =>
    obtain ⟨k0, v0⟩ := e
    rw [List.map_cons, heavyFind_cons]
    by_cases h0 : k0 = key
    · rw [if_pos h0, heavyFind_cons, ih]
      by_cases hk : k0 = k
      · have hkk : k = key := hk.symm.trans h0
        simp [hk, hkk]
      · simp [hk]
    · rw [if_neg h0, heavyFind_cons, ih]
      by_cases hk : k0 = k
      · have hkk : ¬ k = key := fun h => h0 (hk.trans h)
        simp [hk, hkk]
      · simp [hk]

theorem heavyFind_append_single (key : String) (sz : Nat) (k : String) (t : List (String × Nat)) :
    heavyFind k (t ++ [(key, sz)]) =
      match heavyFind k t with
      | some v => some v
      | none => if key = k then some sz else none := by
  induction t with
  | nil => simp [heavyFind]
  | cons e rest ih =>
    obtain ⟨k0, v0⟩ := e
    rw [List.cons_append, heavyFind_cons, heavyFind_cons, ih]
    by_cases hk : k0 = k
    · simp [hk]
    · simp [hk]

theorem heavyFind_heavyAdd_self (key : String) (sz : Nat) (t : List (String × Nat)) :
    heavyFind key (heavyAdd key sz t) =
      some (match heavyFind key t with
            | some v => wrap (v + sz)
            | none => sz) := by
  unfold heavyAdd
  cases h : heavyFind key t with
  | none => simp [heavyFind_append_single, h]
  | some v => simp [heavyFind_map_bump, h]

theorem heavyFind_heavyAdd_other (key : String) (sz : Nat) (k : String) (hk : k ≠ key)
    (t : List (String × Nat)) :
    heavyFind k (heavyAdd key sz t) = heavyFind k t := by
  unfold heavyAdd
  split_ifs with h
  · simp [heavyFind_map_bump, hk]
  · rw [heavyFind_append_single]
    cases heavyFind k t with
    | none => simp [Ne.symm hk]
    | some v => rfl


/-! ## `m61_malloc` -/

theorem malloc_fail (hsz : Nat) (base_malloc : Nat → Nat) (w : State) (sz : Nat)
    (file : String) (line : Int)
    (h : base_malloc (wrap (wrap (sz + hsz) + 1)) = 0 ∨ hsz > SIZE_MAX - sz) :
    m61_malloc hsz base_malloc w sz file line =
      ({ w with gstats := { w.gstats with
          nfail := wrap (w.gstats.nfail + 1)
          fail_size := wrap (w.gstats.fail_size + sz) } }, 0) := by
  unfold m61_malloc
  simp only [if_pos h]

theorem malloc_ok_cond (hsz : Nat) (base_malloc : Nat → Nat) (w : State) (sz : Nat)
    (file : String) (line : Int) (hok : (m61_malloc hsz base_malloc w sz file line).2 ≠ 0) :
    ¬ (base_malloc (wrap (wrap (sz + hsz) + 1)) = 0 ∨ hsz > SIZE_MAX - sz) := by
  intro h
  rw [malloc_fail hsz base_malloc w sz file line h] at hok
  exact hok rfl

theorem malloc_ok (hsz : Nat) (base_malloc : Nat → Nat) (w : State) (sz : Nat)
    (file : String) (line : Int)
    (h : ¬ (base_malloc (wrap (wrap (sz + hsz) + 1)) = 0 ∨ hsz > SIZE_MAX - sz)) :
    m61_malloc hsz base_malloc w sz file line =
      (let prePtr := base_malloc (wrap (wrap (sz + hsz) + 1))
       let ptr := wrap (prePtr + hsz)
       let top := wsub (wrap (ptr + sz)) 1
       let g1 := if w.gstats.ntotal = 0 then { w.gstats with heap_min := ptr, heap_max := top }
                 else w.gstats
       let g2 := if ptr < g1.heap_min then { g1 with heap_min := ptr } else g1
       let g3 := if top > g2.heap_max then { g2 with heap_max := top } else g2
       ({ gstats := { g3 with
            ntotal := wrap (g3.ntotal + 1)
            nactive := wrap (g3.nactive + 1)
            total_size := wrap (g3.total_size + sz)
            active_size := wrap (g3.active_size + sz) }
          activeAlloc := w.activeAlloc ++ [ptr]
          heavyTracker := heavyAdd (fileLine file line) sz w.heavyTracker
          hdr := fun a => if a = prePtr then ⟨sz, true, true, file, line⟩ else w.hdr a
          byte := fun a => if a = wrap (ptr + sz) then magic_key else w.byte a }, ptr)) := by
  unfold m61_malloc
  simp only [if_neg h]

/-- C9: when `m61_malloc` fails (the base allocator answers `nullptr`, or the
size check `sizeof(metAlloc) > SIZE_MAX - sz` fires) it returns `nullptr`, adds
one to `nfail` and `sz` to `fail_size` (as unsigned 64-bit additions, hence
exactly when the sum is representable), and leaves `activeAlloc`,
`heavyTracker`, every other statistic, the heap bounds and memory unchanged. -/
theorem malloc_failure_effect (hsz : Nat) (base_malloc : Nat → Nat) (w : State) (sz : Nat)
    (file : String) (line : Int)
    (h : base_malloc (wrap (wrap (sz + hsz) + 1)) = 0 ∨ hsz > SIZE_MAX - sz) :
    (m61_malloc hsz base_malloc w sz file line).2 = 0 ∧
    (m61_malloc hsz base_malloc w sz file line).1.gstats.nfail = (w.gstats.nfail + 1) % 2 ^ 64 ∧
    (m61_malloc hsz base_malloc w sz file line).1.gstats.fail_size
      = (w.gstats.fail_size + sz) % 2 ^ 64 ∧
    (w.gstats.nfail + 1 < 2 ^ 64 →
      (m61_malloc hsz base_malloc w sz file line).1.gstats.nfail = w.gstats.nfail + 1) ∧
    (w.gstats.fail_size + sz < 2 ^ 64 →
      (m61_malloc hsz base_malloc w sz file line).1.gstats.fail_size = w.gstats.fail_size + sz) ∧
    (m61_malloc hsz base_malloc w sz file line).1.activeAlloc = w.activeAlloc ∧
    (m61_malloc hsz base_malloc w sz file line).1.heavyTracker = w.heavyTracker ∧
    (m61_malloc hsz base_malloc w sz file line).1.gstats.ntotal = w.gstats.ntotal ∧
    (m61_malloc hsz base_malloc w sz file line).1.gstats.nactive = w.gstats.nactive ∧
    (m61_malloc hsz base_malloc w sz file line).1.gstats.total_size = w.gstats.total_size ∧
    (m61_malloc hsz base_malloc w sz file line).1.gstats.active_size = w.gstats.active_size ∧
    (m61_malloc hsz base_malloc w sz file line).1.gstats.heap_min = w.gstats.heap_min ∧
    (m61_malloc hsz base_malloc w sz file line).1.gstats.heap_max = w.gstats.heap_max ∧
    (m61_malloc hsz base_malloc w sz file line).1.hdr = w.hdr ∧
    (m61_malloc hsz base_malloc w sz file line).1.byte = w.byte := by
  rw [malloc_fail hsz base_malloc w sz file line h]
  refine ⟨rfl, rfl, rfl, ?_, ?_, rfl, rfl, rfl, rfl, rfl, rfl, rfl, rfl, rfl, rfl⟩
  · intro hlt
    exact wrap_of_lt hlt
  · intro hlt
    exact wrap_of_lt hlt

/-- Witness for C9: an exhausted base allocator at process start. -/
theorem malloc_failure_effect_witness :
    (baseNull (wrap (wrap (8 + 32) + 1)) = 0 ∨ 32 > SIZE_MAX - 8) ∧
    (m61_malloc 32 baseNull init 8 "a.cc" 1).2 = 0 ∧
    (m61_malloc 32 baseNull init 8 "a.cc" 1).1.gstats.nfail = 1 ∧
    (m61_malloc 32 baseNull init 8 "a.cc" 1).1.gstats.fail_size = 8 ∧
    (m61_malloc 32 baseNull init 8 "a.cc" 1).1.activeAlloc = [] := by
  have h := malloc_failure_effect 32 baseNull init 8 "a.cc" 1 (Or.inl rfl)
  exact ⟨Or.inl rfl, h.1, h.2.1, h.2.2.1, h.2.2.2.2.2.1⟩

/-- C10: a successful `m61_malloc(sz, file, line)` returns `p = raw + sizeof(metAlloc)`,
writes the header `{sz, true, true, file, line}` in front of `p` and the
sentinel at `p + sz`, adds one to `ntotal` and `nactive` and `sz` to
`total_size` and `active_size` (unsigned 64-bit additions, exact when the sum is
representable), appends `p` to `activeAlloc`, and adds `sz` to the call-site
total of `file:line` (creating it with value `sz` if absent) while every other
call-site total keeps its value. -/
theorem malloc_success_effect (hsz : Nat) (base_malloc : Nat → Nat) (w : State) (sz : Nat)
    (file : String) (line : Int)
    (hok : (m61_malloc hsz base_malloc w sz file line).2 ≠ 0)
    (hraw : base_malloc (wrap (wrap (sz + hsz) + 1)) < 2 ^ 64) :
    (m61_malloc hsz base_malloc w sz file line).2
      = (base_malloc (wrap (wrap (sz + hsz) + 1)) + hsz) % 2 ^ 64 ∧
    (m61_malloc hsz base_malloc w sz file line).1.hdr
        (wsub (m61_malloc hsz base_malloc w sz file line).2 hsz)
      = ⟨sz, true, true, file, line⟩ ∧
    (m61_malloc hsz base_malloc w sz file line).1.byte
        (wrap ((m61_malloc hsz base_malloc w sz file line).2 + sz)) = magic_key ∧
    (m61_malloc hsz base_malloc w sz file line).1.gstats.ntotal
      = (w.gstats.ntotal + 1) % 2 ^ 64 ∧
    (m61_malloc hsz base_malloc w sz file line).1.gstats.nactive
      = (w.gstats.nactive + 1) % 2 ^ 64 ∧
    (m61_malloc hsz base_malloc w sz file line).1.gstats.total_size
      = (w.gstats.total_size + sz) % 2 ^ 64 ∧
    (m61_malloc hsz base_malloc w sz file line).1.gstats.active_size
      = (w.gstats.active_size + sz) % 2 ^ 64 ∧
    (w.gstats.ntotal + 1 < 2 ^ 64 →
      (m61_malloc hsz base_malloc w sz file line).1.gstats.ntotal = w.gstats.ntotal + 1) ∧
    (w.gstats.nactive + 1 < 2 ^ 64 →
      (m61_malloc hsz base_malloc w sz file line).1.gstats.nactive = w.gstats.nactive + 1) ∧
    (w.gstats.total_size + sz < 2 ^ 64 →
      (m61_malloc hsz base_malloc w sz file line).1.gstats.total_size
        = w.gstats.total_size + sz) ∧
    (w.gstats.active_size + sz < 2 ^ 64 →
      (m61_malloc hsz base_malloc w sz file line).1.gstats.active_size
        = w.gstats.active_size + sz) ∧
    (m61_malloc hsz base_malloc w sz file line).1.activeAlloc
      = w.activeAlloc ++ [(m61_malloc hsz base_malloc w sz file line).2] ∧
    heavyFind (fileLine file line) (m61_malloc hsz base_malloc w sz file line).1.heavyTracker
      = some (match heavyFind (fileLine file line) w.heavyTracker with
              | some v => (v + sz) % 2 ^ 64
              | none => sz) ∧
    (∀ k, k ≠ fileLine file line →
      heavyFind k (m61_malloc hsz base_malloc w sz file line).1.heavyTracker
        = heavyFind k w.heavyTracker) := by
  have hc := malloc_ok_cond hsz base_malloc w sz file line hok
  rw [malloc_ok hsz base_malloc w sz file line hc]
  refine ⟨rfl, ?_, ?_, ?_, ?_, ?_, ?_, ?_, ?_, ?_, ?_, rfl, ?_, ?_⟩
  · simp only [wsub_add_cancel hraw, if_true]
  · simp only [if_true]
  · simp only []
    split_ifs <;> rfl
  · simp only []
    split_ifs <;> rfl
  · simp only []
    split_ifs <;> rfl
  · simp only []
    split_ifs <;> rfl
  · intro hlt
    simp only []
    split_ifs <;> exact wrap_of_lt hlt
  · intro hlt
    simp only []
    split_ifs <;> exact wrap_of_lt hlt
  · intro hlt
    simp only []
    split_ifs <;> exact wrap_of_lt hlt
  · intro hlt
    simp only []
    split_ifs <;> exact wrap_of_lt hlt
  · exact heavyFind_heavyAdd_self _ _ _
  · intro k hk
    exact heavyFind_heavyAdd_other _ _ _ hk _

/-- Witness for C10: `m61_malloc(8, "a.cc", 1)` at process start, served from
raw address `4096` with a 32-byte header. -/
theorem malloc_success_effect_witness :
    ((m61_malloc 32 base4096 init 8 "a.cc" 1).2 ≠ 0 ∧
      base4096 (wrap (wrap (8 + 32) + 1)) < 2 ^ 64) ∧
    (m61_malloc 32 base4096 init 8 "a.cc" 1).2 = 4128 ∧
    (m61_malloc 32 base4096 init 8 "a.cc" 1).1.hdr 4096 = ⟨8, true, true, "a.cc", 1⟩ ∧
    (m61_malloc 32 base4096 init 8 "a.cc" 1).1.byte 4136 = magic_key ∧
    (m61_malloc 32 base4096 init 8 "a.cc" 1).1.gstats.ntotal = 1 ∧
    (m61_malloc 32 base4096 init 8 "a.cc" 1).1.activeAlloc = [4128] ∧
    heavyFind "a.cc:1" (m61_malloc 32 base4096 init 8 "a.cc" 1).1.heavyTracker = some 8 := by
  have h := malloc_success_effect 32 base4096 init 8 "a.cc" 1 (by decide) (by decide)
  exact ⟨⟨by decide, by decide⟩, h.1, h.2.1, h.2.2.1, h.2.2.2.1, h.2.2.2.2.2.2.2.2.2.2.2.1,
    h.2.2.2.2.2.2.2.2.2.2.2.2.1⟩

/-- C4 (failing input): at process start `m61_malloc(0, "a.cc", 1)` served from
raw address `4096` returns `p = 4128` and leaves `heap_min = 4128`,
`heap_max = 4127`, so the returned pointer is above `heap_max`. -/
theorem malloc_zero_bounds_exclude_pointer :
    (m61_malloc 32 base4096 init 0 "a.cc" 1).2 = 4128 ∧
    (m61_malloc 32 base4096 init 0 "a.cc" 1).1.gstats.heap_min = 4128 ∧
    (m61_malloc 32 base4096 init 0 "a.cc" 1).1.gstats.heap_max = 4127 ∧
    ¬ ((m61_malloc 32 base4096 init 0 "a.cc" 1).2
        ≤ (m61_malloc 32 base4096 init 0 "a.cc" 1).1.gstats.heap_max) := by
  decide

/-- C2 (failing input): the pointer `4128` returned by `m61_malloc(0, "a.cc", 1)`
at process start is live and untouched, yet `m61_free` of it aborts with
`not in heap`. -/
theorem free_zero_size_block_aborts :
    (m61_malloc 32 base4096 init 0 "a.cc" 1).2 = 4128 ∧
    afterMalloc0.activeAlloc = [4128] ∧
    afterMalloc0.hdr 4096 = ⟨0, true, true, "a.cc", 1⟩ ∧
    afterMalloc0.byte 4128 = magic_key ∧
    m61_free 32 afterMalloc0 4128 "a.cc" 2 = .abort .notInHeap "a.cc" 2 4128 [] := by
  refine ⟨by decide, by decide, by decide, by decide, rfl⟩

/-- C3 (failing input): for `sz = SIZE_MAX - 32` and a 32-byte header the byte
count `sz + 32 + 1` exceeds `SIZE_MAX` and the base allocator is asked for
`0` bytes; when it answers that request with `4096`, `m61_malloc` does not fail:
it returns `4128`, counts a successful allocation, and writes the header at
`4096` and the sentinel at `4095`. -/
theorem malloc_wrapped_request_succeeds :
    SIZE_MAX < 32 + (SIZE_MAX - 32) + 1 ∧
    wrap (wrap ((SIZE_MAX - 32) + 32) + 1) = 0 ∧
    (m61_malloc 32 baseZeroOnly init (SIZE_MAX - 32) "a.cc" 1).2 = 4128 ∧
    (m61_malloc 32 baseZeroOnly init (SIZE_MAX - 32) "a.cc" 1).1.gstats.nfail = 0 ∧
    (m61_malloc 32 baseZeroOnly init (SIZE_MAX - 32) "a.cc" 1).1.gstats.ntotal = 1 ∧
    (m61_malloc 32 baseZeroOnly init (SIZE_MAX - 32) "a.cc" 1).1.hdr 4096
      = ⟨SIZE_MAX - 32, true, true, "a.cc", 1⟩ ∧
    (m61_malloc 32 baseZeroOnly init (SIZE_MAX - 32) "a.cc" 1).1.byte 4095 = magic_key := by
  decide

/-- C8 (failing input): `m61_calloc(0, 8, "a.cc", 1)` evaluates
`SIZE_MAX / nmemb` with `nmemb == 0`. -/
theorem calloc_zero_count_divides_by_zero :
    m61_calloc 32 base4096 init 0 8 "a.cc" 1 = .undefined .divideByZero := by
  rfl

/-- C1 (failing input): with the block `4128` of `m61_malloc(8, "a.cc", 1)` live,
`m61_realloc(4128, 16, "a.cc", 2)` under an exhausted base allocator returns
`nullptr` after freeing the old block: `4128` has left `activeAlloc`, its
header has `allocated == false`, and `nactive` and `active_size` dropped from
`1` and `8` to `0`. -/
theorem realloc_failed_alloc_frees_old :
    afterMalloc8.activeAlloc = [4128] ∧
    (afterMalloc8.hdr 4096).allocated = true ∧
    afterMalloc8.gstats.nactive = 1 ∧
    afterMalloc8.gstats.active_size = 8 ∧
    (m61_malloc 32 baseNull afterMalloc8 16 "a.cc" 2).2 = 0 ∧
    ∃ w, m61_realloc 32 baseNull afterMalloc8 4128 16 "a.cc" 2 = .ret w 0 ∧
      w.activeAlloc = [] ∧
      (w.hdr 4096).allocated = false ∧
      w.gstats.nactive = 0 ∧
      w.gstats.active_size = 0 := by
  refine ⟨by decide, by decide, by decide, by decide, by decide, ?_⟩
  refine ⟨_, rfl, ?_, ?_, ?_, ?_⟩ <;> decide

/-- C5 (failing input): the live block `4128` has recorded size `8` and holds
the byte `7` at offset `0`; `m61_realloc(4128, 16, "a.cc", 2)`, served from raw
address `8192`, returns `8224`, but reads the old size in front of
`4128 - 32 * 32` and copies `0` bytes: offset `0` of the new block does not
hold `7`. -/
theorem realloc_copies_wrong_count :
    ((store afterMalloc8 4128 7).hdr 4096).sz = 8 ∧
    (store afterMalloc8 4128 7).byte 4128 = 7 ∧
    (m61_malloc 32 base8192 (store afterMalloc8 4128 7) 16 "a.cc" 2).2 = 8224 ∧
    ∃ w, m61_realloc 32 base8192 (store afterMalloc8 4128 7) 4128 16 "a.cc" 2 = .ret w 8224 ∧
      w.byte 8224 = 0 ∧
      w.byte 8224 ≠ (store afterMalloc8 4128 7).byte 4128 := by
  refine ⟨by decide, by decide, by decide, ?_⟩
  refine ⟨_, rfl, ?_, ?_⟩ <;> decide

/-! ## `m61_free` -/

theorem toInt32_of_lt {n : Nat} (h : n < 2 ^ 31) : toInt32 n = (n : Int) := by
  unfold toInt32
  have h1 : n % 2 ^ 32 = n := Nat.mod_eq_of_lt (by omega)
  rw [h1, if_pos h]

theorem findIndex_not_mem (ptr : Nat) (l : List Nat) (i : Nat) (index : Int) (h : ptr ∉ l) :
    findIndex ptr l i index = index := by
  induction l generalizing i index with
  | nil => rfl
  | cons a rest ih =>
    have ha : ¬ a = ptr := fun e => h (e ▸ List.mem_cons_self _ _)
    have hr : ptr ∉ rest := fun e => h (List.mem_cons_of_mem _ e)
    unfold findIndex
    rw [if_neg ha]
    exact ih _ _ hr

theorem findIndex_mem (ptr : Nat) (l : List Nat) (i : Nat) (index : Int) (h : ptr ∈ l) :
    ∃ j, j < l.length ∧ l[j]? = some ptr ∧ findIndex ptr l i index = ((i + j : Nat) : Int) := by
  induction l generalizing i index with
  | nil => exact absurd h (List.not_mem_nil _)
  | cons a rest ih =>
    unfold findIndex
    by_cases hr : ptr ∈ rest
    · obtain ⟨j, hj, hget, hfi⟩ := ih (i + 1) (if a = ptr then (i : Int) else index) hr
      refine ⟨j + 1, by simp [hj], by simpa using hget, ?_⟩
      rw [hfi]
      congr 1
      omega
    · have ha : a = ptr := by
        rcases List.mem_cons.mp h with e | e
        · exact e.symm
        · exact absurd e hr
      rw [if_pos ha, findIndex_not_mem ptr rest _ _ hr]
      exact ⟨0, by simp, by simp [ha], by simp⟩

theorem free_ret_inv (hsz : Nat) (w : State) (p : Nat) (f : String) (l : Int) (w1 : State)
    (h : m61_free hsz w p f l = .ret w1 ()) (hp : p ≠ 0) :
    ¬ (p < w.gstats.heap_min ∨ p > w.gstats.heap_max) ∧
    (w.hdr (wsub p hsz)).everAllocated = true ∧
    (w.hdr (wsub p hsz)).allocated = true ∧
    w.byte (wrap (p + (w.hdr (wsub p hsz)).sz)) = magic_key ∧
    insideOther hsz w p (scanned w.activeAlloc) = false ∧
    ∃ l1, eraseAt w.activeAlloc (findIndex p (scanned w.activeAlloc) 0 (-1)) = some l1 ∧
      w1 = { w with
        gstats := { w.gstats with
          nactive := wsub w.gstats.nactive 1
          active_size := wsub w.gstats.active_size (w.hdr (wsub p hsz)).sz }
        hdr := fun a =>
          if a = wsub p hsz then { w.hdr (wsub p hsz) with allocated := false } else w.hdr a
        activeAlloc := l1 } := by
  unfold m61_free at h
  simp only [if_neg hp] at h
  split_ifs at h with h1 h2 h3 h4 h5
  cases he : eraseAt w.activeAlloc (findIndex p (scanned w.activeAlloc) 0 (-1)) with
  | none => simp [he] at h
  | some l1 =>
    simp only [he] at h
    injection h with hw _
    refine ⟨h1, by simpa using h2, by simpa using h3, by simpa using h4, by simpa using h5,
      l1, rfl, hw.symm⟩

/-! ## Reachable states and repeated frees -/

theorem countInv_congr {n : Nat} {w w1 : State} (h : CountInv n w)
    (h1 : w1.gstats.ntotal = w.gstats.ntotal) (h2 : w1.gstats.heap_min = w.gstats.heap_min)
    (h3 : w1.gstats.heap_max = w.gstats.heap_max) : CountInv n w1 := by
  unfold CountInv at *
  rw [h1, h2, h3]
  exact h

theorem malloc_countInv (hsz : Nat) (b : Nat → Nat) (w : State) (sz : Nat) (f : String)
    (l : Int) (n : Nat) (h : CountInv n w) :
    CountInv n (m61_malloc hsz b w sz f l).1 ∨ CountInv (n + 1) (m61_malloc hsz b w sz f l).1 := by
  by_cases hc : b (wrap (wrap (sz + hsz) + 1)) = 0 ∨ hsz > SIZE_MAX - sz
  · left
    rw [malloc_fail hsz b w sz f l hc]
    exact countInv_congr h rfl rfl rfl
  · right
    rw [malloc_ok hsz b w sz f l hc]
    refine ⟨?_, fun h0 => absurd h0 (Nat.succ_ne_zero n)⟩
    have hn := h.1
    simp only []
    have key : wrap (w.gstats.ntotal + 1) = (n + 1) % 2 ^ 64 := by
      rw [hn]
      unfold wrap
      omega
    split_ifs <;> exact key

theorem free_cases (hsz : Nat) (w : State) (p : Nat) (f : String) (l : Int) :
    m61_free hsz w p f l = .ret w () ∨
    (∃ bug i, m61_free hsz w p f l = .abort bug f l p i) ∨
    m61_free hsz w p f l = .undefined .eraseOutOfRange ∨
    (∃ l1, m61_free hsz w p f l = .ret { w with
        gstats := { w.gstats with
          nactive := wsub w.gstats.nactive 1
          active_size := wsub w.gstats.active_size (w.hdr (wsub p hsz)).sz }
        hdr := fun a =>
          if a = wsub p hsz then { w.hdr (wsub p hsz) with allocated := false } else w.hdr a
        activeAlloc := l1 } ()) := by
  by_cases h0 : p = 0
  · left
    unfold m61_free
    exact if_pos h0
  by_cases h1 : p < w.gstats.heap_min ∨ p > w.gstats.heap_max
  · right; left
    refine ⟨.notInHeap, [], ?_⟩
    unfold m61_free
    rw [if_neg h0, if_pos h1]
  by_cases h2 : (w.hdr (wsub p hsz)).everAllocated = false
  · right; left
    refine ⟨.notAllocated, insideReport hsz w p f (scanned w.activeAlloc), ?_⟩
    unfold m61_free
    simp only [if_neg h0, if_neg h1]
    rw [if_pos h2]
  by_cases h3 : (w.hdr (wsub p hsz)).allocated = false
  · right; left
    refine ⟨.doubleFree, [], ?_⟩
    unfold m61_free
    simp only [if_neg h0, if_neg h1]
    rw [if_neg h2, if_pos h3]
  by_cases h4 : w.byte (wrap (p + (w.hdr (wsub p hsz)).sz)) ≠ magic_key
  · right; left
    refine ⟨.wildWrite, [], ?_⟩
    unfold m61_free
    simp only [if_neg h0, if_neg h1]
    rw [if_neg h2, if_neg h3, if_pos h4]
  by_cases h5 : insideOther hsz w p (scanned w.activeAlloc) = true
  · right; left
    refine ⟨.notAllocated, [], ?_⟩
    unfold m61_free
    simp only [if_neg h0, if_neg h1]
    rw [if_neg h2, if_neg h3, if_neg h4, if_pos h5]
  cases he : eraseAt w.activeAlloc (findIndex p (scanned w.activeAlloc) 0 (-1)) with
  | none =>
    right; right; left
    unfold m61_free
    simp only [if_neg h0, if_neg h1]
    rw [if_neg h2, if_neg h3, if_neg h4, if_neg h5]
    simp only [he]
  | some l1 =>
    right; right; right
    refine ⟨l1, ?_⟩
    unfold m61_free
    simp only [if_neg h0, if_neg h1]
    rw [if_neg h2, if_neg h3, if_neg h4, if_neg h5]
    simp only [he]

theorem free_state_gstats (hsz : Nat) (w : State) (p : Nat) (f : String) (l : Int)
    (w1 : State) (hf : (m61_free hsz w p f l).state? = some w1) :
    w1.gstats.ntotal = w.gstats.ntotal ∧ w1.gstats.heap_min = w.gstats.heap_min ∧
      w1.gstats.heap_max = w.gstats.heap_max := by
  rcases free_cases hsz w p f l with h | ⟨bug, i, h⟩ | h | ⟨l1, h⟩
  · rw [h] at hf
    simp only [Outcome.state?, Option.some.injEq] at hf
    subst hf
    exact ⟨rfl, rfl, rfl⟩
  · rw [h] at hf
    simp [Outcome.state?] at hf
  · rw [h] at hf
    simp [Outcome.state?] at hf
  · rw [h] at hf
    simp only [Outcome.state?, Option.some.injEq] at hf
    subst hf
    exact ⟨rfl, rfl, rfl⟩

theorem free_countInv (hsz : Nat) (w : State) (p : Nat) (f : String) (l : Int) (w1 : State)
    (n : Nat) (h : CountInv n w) (hf : (m61_free hsz w p f l).state? = some w1) :
    CountInv n w1 := by
  obtain ⟨h1, h2, h3⟩ := free_state_gstats hsz w p f l w1 hf
  exact countInv_congr h h1 h2 h3

theorem calloc_countInv (hsz : Nat) (b : Nat → Nat) (w : State) (nmemb sz : Nat) (f : String)
    (l : Int) (w1 : State) (n : Nat) (h : CountInv n w)
    (hf : (m61_calloc hsz b w nmemb sz f l).state? = some w1) :
    CountInv n w1 ∨ CountInv (n + 1) w1 := by
  unfold m61_calloc at hf
  by_cases h1 : nmemb = 0
  · rw [if_pos h1] at hf
    simp [Outcome.state?] at hf
  rw [if_neg h1] at hf
  by_cases h2 : sz > SIZE_MAX / nmemb
  · rw [if_pos h2] at hf
    simp only [Outcome.state?, Option.some.injEq] at hf
    subst hf
    left
    exact countInv_congr h rfl rfl rfl
  rw [if_neg h2] at hf
  by_cases h3 : (m61_malloc hsz b w (wrap (nmemb * sz)) f l).2 ≠ 0
  · simp only [if_pos h3, Outcome.state?, Option.some.injEq] at hf
    subst hf
    rcases malloc_countInv hsz b w (wrap (nmemb * sz)) f l n h with hm | hm
    · left; exact countInv_congr hm rfl rfl rfl
    · right; exact countInv_congr hm rfl rfl rfl
  · simp only [if_neg h3, Outcome.state?, Option.some.injEq] at hf
    subst hf
    exact malloc_countInv hsz b w (wrap (nmemb * sz)) f l n h

theorem realloc_countInv (hsz : Nat) (b : Nat → Nat) (w : State) (p sz : Nat) (f : String)
    (l : Int) (w1 : State) (n : Nat) (h : CountInv n w)
    (hf : (m61_realloc hsz b w p sz f l).state? = some w1) :
    CountInv n w1 ∨ CountInv (n + 1) w1 := by
  unfold m61_realloc at hf
  split_ifs at hf with h1 h2
  · left
    cases hr : m61_free hsz w p f l with
    | ret w2 u =>
      rw [hr] at hf
      simp only [Outcome.state?, Option.some.injEq] at hf
      subst hf
      exact free_countInv hsz w p f l w2 n h (by rw [hr]; rfl)
    | abort b2 f2 l2 p2 i =>
      rw [hr] at hf
      simp [Outcome.state?] at hf
    | undefined u =>
      rw [hr] at hf
      simp [Outcome.state?] at hf
  · simp only [Outcome.state?, Option.some.injEq] at hf
    subst hf
    exact malloc_countInv hsz b w sz f l n h
  · simp only [] at hf
    generalize hw2 : memcpy (m61_malloc hsz b w sz f l).1 (m61_malloc hsz b w sz f l).2 p
      (ofInt (min (toInt32 sz)
        (toInt32 ((m61_malloc hsz b w sz f l).1.hdr (wsub p (wrap (hsz * hsz)))).sz))) = w2 at hf
    have hstep : ∀ m, CountInv m (m61_malloc hsz b w sz f l).1 → CountInv m w1 := by
      intro m hm
      have hm2 : CountInv m w2 := by
        subst hw2
        exact ⟨hm.1, hm.2⟩
      cases hr : m61_free hsz w2 p f l with
      | ret w3 u =>
        rw [hr] at hf
        simp only [Outcome.state?, Option.some.injEq] at hf
        subst hf
        exact free_countInv hsz w2 p f l w3 m hm2 (by rw [hr]; rfl)
      | abort b2 f2 l2 p2 i =>
        rw [hr] at hf
        simp [Outcome.state?] at hf
      | undefined u =>
        rw [hr] at hf
        simp [Outcome.state?] at hf
    rcases malloc_countInv hsz b w sz f l n h with hm | hm
    · left; exact hstep n hm
    · right; exact hstep (n + 1) hm

theorem step_countInv (hsz : Nat) (w : State) (c : Call) (w1 : State) (n : Nat)
    (h : CountInv n w) (hs : step hsz w c = some w1) :
    CountInv n w1 ∨ CountInv (n + 1) w1 := by
  cases c with
  | malloc b sz f l =>
    simp only [step, Option.some.injEq] at hs
    subst hs
    exact malloc_countInv hsz b w sz f l n h
  | free p f l =>
    left
    exact free_countInv hsz w p f l w1 n h hs
  | calloc b nm sz f l => exact calloc_countInv hsz b w nm sz f l w1 n h hs
  | realloc b p sz f l => exact realloc_countInv hsz b w p sz f l w1 n h hs
  | store a v =>
    simp only [step, Option.some.injEq] at hs
    subst hs
    left
    exact countInv_congr h rfl rfl rfl
  | storeHdr a m =>
    simp only [step, Option.some.injEq] at hs
    subst hs
    left
    exact countInv_congr h rfl rfl rfl

theorem run_countInv (hsz : Nat) (cs : List Call) (w w1 : State) (n : Nat)
    (h : CountInv n w) (hr : run hsz w cs = some w1) :
    ∃ m, m ≤ n + cs.length ∧ CountInv m w1 := by
  induction cs generalizing w n with
  | nil =>
    simp only [run, Option.some.injEq] at hr
    subst hr
    exact ⟨n, by simp, h⟩
  | cons c cs ih =>
    simp only [run] at hr
    cases hs : step hsz w c with
    | none => simp [hs] at hr
    | some w2 =>
      simp only [hs, Option.some_bind] at hr
      rcases step_countInv hsz w c w2 n h hs with h2 | h2
      · obtain ⟨m, hm, hinv⟩ := ih w2 n h2 hr
        exact ⟨m, by simp only [List.length_cons]; omega, hinv⟩
      · obtain ⟨m, hm, hinv⟩ := ih w2 (n + 1) h2 hr
        exact ⟨m, by simp only [List.length_cons]; omega, hinv⟩

theorem init_countInv : CountInv 0 init := ⟨rfl, fun _ => ⟨rfl, rfl⟩⟩

theorem malloc_keeps (hsz : Nat) (b : Nat → Nat) (w : State) (sz : Nat) (f : String) (l : Int)
    (p x : Nat) (hn : w.gstats.ntotal ≠ 0)
    (hlo : w.gstats.heap_min ≤ p) (hhi : p ≤ w.gstats.heap_max)
    (hx : b (wrap (wrap (sz + hsz) + 1)) ≠ x) :
    (m61_malloc hsz b w sz f l).1.gstats.heap_min ≤ p ∧
    p ≤ (m61_malloc hsz b w sz f l).1.gstats.heap_max ∧
    (m61_malloc hsz b w sz f l).1.hdr x = w.hdr x := by
  by_cases hc : b (wrap (wrap (sz + hsz) + 1)) = 0 ∨ hsz > SIZE_MAX - sz
  · rw [malloc_fail hsz b w sz f l hc]
    exact ⟨hlo, hhi, rfl⟩
  · rw [malloc_ok hsz b w sz f l hc]
    simp only [if_neg hn]
    refine ⟨?_, ?_, ?_⟩
    · split_ifs <;> (try dsimp only at *) <;> omega
    · split_ifs <;> (try dsimp only at *) <;> omega
    · rw [if_neg (Ne.symm hx)]

theorem mallocs_keep (hsz : Nat) (p x : Nat) (h0 : metAlloc) (as : List Alloc) :
    ∀ (w : State) (n : Nat), CountInv n w → 0 < n → n + as.length < 2 ^ 64 →
      w.gstats.heap_min ≤ p → p ≤ w.gstats.heap_max → w.hdr x = h0 →
      (∀ a ∈ as, a.raw hsz ≠ x) →
      (mallocs hsz w as).gstats.heap_min ≤ p ∧ p ≤ (mallocs hsz w as).gstats.heap_max ∧
        (mallocs hsz w as).hdr x = h0 := by
  induction as with
  | nil =>
    intro w n _ _ _ hlo hhi hh _
    exact ⟨hlo, hhi, hh⟩
  | cons a as ih =>
    intro w n hinv hpos hlen hlo hhi hh hraw
    simp only [List.length_cons] at hlen
    have hn : w.gstats.ntotal ≠ 0 := by
      rw [hinv.1, Nat.mod_eq_of_lt (by omega)]
      omega
    have hx : a.base_malloc (wrap (wrap (a.sz + hsz) + 1)) ≠ x := hraw a (List.mem_cons_self _ _)
    obtain ⟨k1, k2, k3⟩ := malloc_keeps hsz a.base_malloc w a.sz a.file a.line p x hn hlo hhi hx
    have hraw2 : ∀ c ∈ as, c.raw hsz ≠ x := fun c hc => hraw c (List.mem_cons_of_mem _ hc)
    simp only [mallocs]
    rcases malloc_countInv hsz a.base_malloc w a.sz a.file a.line n hinv with hm | hm
    · exact ih _ n hm hpos (by omega) k1 k2 (k3.trans hh) hraw2
    · exact ih _ (n + 1) hm (by omega) (by omega) k1 k2 (k3.trans hh) hraw2

/-- C6: let `w` be reached from process start by the actions `cs`, and let
`m61_free(p, ..)` of a non-null `p` return there (the release case), giving
`w1`.  After any further `m61_malloc` calls `as` that do not write to the header
of `p` (the header and the sentinel of each new block lie outside the
`sizeof(metAlloc)` bytes in front of `p`), a second `m61_free(p, ..)` aborts
with `double free`: it is not `not in heap`, `not allocated` or `wild write`.
The calls number fewer than `2^64`, so that `ntotal` has not wrapped to zero. -/
theorem double_free_detected (hsz : Nat) (cs : List Call) (w w1 : State) (p : Nat)
    (f1 : String) (l1 : Int) (as : List Alloc) (f2 : String) (l2 : Int)
    (hreach : run hsz init cs = some w)
    (hp : p ≠ 0)
    (hfree : m61_free hsz w p f1 l1 = .ret w1 ())
    (hcount : cs.length + as.length < 2 ^ 64)
    (hpos : 0 < hsz)
    (hmiss : ∀ a ∈ as,
      (a.raw hsz + hsz ≤ wsub p hsz ∨ wsub p hsz + hsz ≤ a.raw hsz) ∧
      (wrap (wrap (a.raw hsz + hsz) + a.sz) < wsub p hsz ∨
        wsub p hsz + hsz ≤ wrap (wrap (a.raw hsz + hsz) + a.sz))) :
    m61_free hsz (mallocs hsz w1 as) p f2 l2 = .abort .doubleFree f2 l2 p [] := by
  have hhdr : ∀ a ∈ as, a.raw hsz ≠ wsub p hsz := by
    intro a ha
    have h1 := (hmiss a ha).1
    omega
  obtain ⟨n, hn, hinv⟩ := run_countInv hsz cs init w 0 init_countInv hreach
  obtain ⟨hin, hever, halloc, _, _, la, _, hw1⟩ := free_ret_inv hsz w p f1 l1 w1 hfree hp
  have hlo : w.gstats.heap_min ≤ p := by omega
  have hhi : p ≤ w.gstats.heap_max := by omega
  have hnpos : 0 < n := by
    rcases Nat.eq_zero_or_pos n with h0 | h0
    · have hz := hinv.2 h0
      omega
    · exact h0
  have hinv1 : CountInv n w1 := by
    subst hw1
    exact ⟨hinv.1, hinv.2⟩
  have hlo1 : w1.gstats.heap_min ≤ p := by
    subst hw1
    exact hlo
  have hhi1 : p ≤ w1.gstats.heap_max := by
    subst hw1
    exact hhi
  have hh1 : w1.hdr (wsub p hsz) = { w.hdr (wsub p hsz) with allocated := false } := by
    subst hw1
    simp only [if_true]
  obtain ⟨k1, k2, k3⟩ := mallocs_keep hsz p (wsub p hsz) _ as w1 n hinv1 hnpos (by omega)
    hlo1 hhi1 hh1 hhdr
  have hE : ((mallocs hsz w1 as).hdr (wsub p hsz)).everAllocated = true := by
    rw [k3]
    exact hever
  have hA : ((mallocs hsz w1 as).hdr (wsub p hsz)).allocated = false := by
    rw [k3]
  unfold m61_free
  rw [if_neg hp, if_neg (by omega)]
  simp only []
  rw [if_neg (by simp [hE]), if_pos hA]

/-- Witness for C6: `m61_malloc(8)`, `m61_free(4128)`, a later `m61_malloc(16)`
served from raw address `8192`, then `m61_free(4128)` again. -/
theorem double_free_detected_witness :
    (run 32 init [Call.malloc base4096 8 "a.cc" 1] = some afterMalloc8 ∧
      (4128 : Nat) ≠ 0 ∧
      m61_free 32 afterMalloc8 4128 "a.cc" 2 = .ret afterFree8 () ∧
      [Call.malloc base4096 8 "a.cc" 1].length + [laterAlloc].length < 2 ^ 64 ∧
      0 < 32 ∧
      (∀ a ∈ [laterAlloc],
        (a.raw 32 + 32 ≤ wsub 4128 32 ∨ wsub 4128 32 + 32 ≤ a.raw 32) ∧
        (wrap (wrap (a.raw 32 + 32) + a.sz) < wsub 4128 32 ∨
          wsub 4128 32 + 32 ≤ wrap (wrap (a.raw 32 + 32) + a.sz)))) ∧
    m61_free 32 (mallocs 32 afterFree8 [laterAlloc]) 4128 "a.cc" 4
      = .abort .doubleFree "a.cc" 4 4128 [] :=
  ⟨⟨rfl, by decide, rfl, by decide, by decide, by decide⟩,
    double_free_detected 32 [Call.malloc base4096 8 "a.cc" 1] afterMalloc8 afterFree8 4128
      "a.cc" 2 [laterAlloc] "a.cc" 4 rfl (by decide) rfl (by decide) (by decide) (by decide)⟩

/-- C13: `m61_realloc(ptr, 0, ..)` ends exactly as `m61_free(ptr, ..)` does (same
state, same abort, same undefined operation) and returns `nullptr`, also for
`ptr == nullptr`; and for `sz > 0`, `m61_realloc(nullptr, sz, ..)` returns the
state and the pointer of `m61_malloc(sz, ..)`. -/
theorem realloc_edge_cases (hsz : Nat) (base_malloc : Nat → Nat) (w : State) (ptr sz : Nat)
    (file : String) (line : Int) :
    m61_realloc hsz base_malloc w ptr 0 file line
      = (m61_free hsz w ptr file line).returning 0 ∧
    m61_realloc hsz base_malloc w 0 0 file line = .ret w 0 ∧
    (sz ≠ 0 →
      m61_realloc hsz base_malloc w 0 sz file line
        = .ret (m61_malloc hsz base_malloc w sz file line).1
            (m61_malloc hsz base_malloc w sz file line).2) := by
  refine ⟨?_, ?_, ?_⟩
  · unfold m61_realloc
    rw [if_pos rfl]
    cases m61_free hsz w ptr file line <;> rfl
  · unfold m61_realloc m61_free
    rw [if_pos rfl, if_pos rfl]
  · intro hsz0
    unfold m61_realloc
    rw [if_neg hsz0]
    simp only [if_true]

/-- Witness for C13: `m61_realloc(nullptr, 8, "a.cc", 1)` at process start. -/
theorem realloc_edge_cases_witness :
    (8 : Nat) ≠ 0 ∧
    m61_realloc 32 base4096 init 0 8 "a.cc" 1
      = .ret (m61_malloc 32 base4096 init 8 "a.cc" 1).1
          (m61_malloc 32 base4096 init 8 "a.cc" 1).2 :=
  ⟨by decide, (realloc_edge_cases 32 base4096 init 0 8 "a.cc" 1).2.2 (by decide)⟩

/-- C16: when `m61_free(ptr, ..)` returns, in whichever case, `heavyTracker`,
`ntotal`, `total_size`, `nfail`, `fail_size`, `heap_min` and `heap_max` are
unchanged, and so are the character view of memory, every header other than
the one in front of `ptr`, and all fields of that header except `allocated`.
(An aborting call leaves no state behind: the process ends.) -/
theorem free_frame (hsz : Nat) (w : State) (ptr : Nat) (file : String) (line : Int)
    (w1 : State) (h : m61_free hsz w ptr file line = .ret w1 ()) :
    w1.heavyTracker = w.heavyTracker ∧
    w1.gstats.ntotal = w.gstats.ntotal ∧
    w1.gstats.total_size = w.gstats.total_size ∧
    w1.gstats.nfail = w.gstats.nfail ∧
    w1.gstats.fail_size = w.gstats.fail_size ∧
    w1.gstats.heap_min = w.gstats.heap_min ∧
    w1.gstats.heap_max = w.gstats.heap_max ∧
    w1.byte = w.byte ∧
    (∀ a, a ≠ wsub ptr hsz → w1.hdr a = w.hdr a) ∧
    (w1.hdr (wsub ptr hsz)).sz = (w.hdr (wsub ptr hsz)).sz ∧
    (w1.hdr (wsub ptr hsz)).everAllocated = (w.hdr (wsub ptr hsz)).everAllocated ∧
    (w1.hdr (wsub ptr hsz)).file = (w.hdr (wsub ptr hsz)).file ∧
    (w1.hdr (wsub ptr hsz)).line = (w.hdr (wsub ptr hsz)).line := by
  rcases free_cases hsz w ptr file line with h1 | ⟨bug, i, h1⟩ | h1 | ⟨l1, h1⟩
  · rw [h1] at h
    injection h with hw _
    subst hw
    exact ⟨rfl, rfl, rfl, rfl, rfl, rfl, rfl, rfl, fun _ _ => rfl, rfl, rfl, rfl, rfl⟩
  · rw [h1] at h
    exact Outcome.noConfusion h
  · rw [h1] at h
    exact Outcome.noConfusion h
  · rw [h1] at h
    injection h with hw _
    subst hw
    refine ⟨rfl, rfl, rfl, rfl, rfl, rfl, rfl, rfl, ?_, ?_, ?_, ?_, ?_⟩
    · intro a ha
      simp only [if_neg ha]
    · simp only [if_true]
    · simp only [if_true]
    · simp only [if_true]
    · simp only [if_true]

/-- Witness for C16: the releasing free of the block `4128`. -/
theorem free_frame_witness :
    m61_free 32 afterMalloc8 4128 "a.cc" 2 = .ret afterFree8 () ∧
    afterFree8.heavyTracker = afterMalloc8.heavyTracker ∧
    afterFree8.gstats.total_size = afterMalloc8.gstats.total_size ∧
    afterFree8.gstats.heap_max = afterMalloc8.gstats.heap_max :=
  ⟨rfl, (free_frame 32 afterMalloc8 4128 "a.cc" 2 afterFree8 rfl).1,
    (free_frame 32 afterMalloc8 4128 "a.cc" 2 afterFree8 rfl).2.2.1,
    (free_frame 32 afterMalloc8 4128 "a.cc" 2 afterFree8 rfl).2.2.2.2.2.2.1⟩

/-- C18 (failing input): the block `4128` of 64 zeroed bytes was allocated by
`m61_calloc(8, 8, "a.cc", 1)`.  For `m61_free(4168, "b.cc", 7)` the header read
at `4136 .. 4167` lies wholly inside the zeroed payload, so `everAllocated` is
false and the call aborts with `not allocated`; its one diagnostic line names
the file `b.cc` of the free call together with line `1` of the allocation, not
the allocation site `a.cc:1`. -/
theorem inside_report_names_free_file :
    m61_calloc 32 base4096 init 8 8 "a.cc" 1 = .ret afterCalloc64 4128 ∧
    (afterCalloc64.hdr 4096).file = "a.cc" ∧
    (afterCalloc64.hdr 4096).line = 1 ∧
    (∀ a, 4128 ≤ a → a < 4192 → afterCalloc64.byte a = 0) ∧
    afterCalloc64.hdr (wsub 4168 32) = zeroHdr ∧
    m61_free 32 afterCalloc64 4168 "b.cc" 7
      = .abort .notAllocated "b.cc" 7 4168 [⟨"b.cc", 1, 4168, 40, 64⟩] := by
  refine ⟨rfl, by decide, by decide, ?_, by decide, rfl⟩
  intro a h1 h2
  have hst : afterCalloc64
      = memset0 (m61_malloc 32 base4096 init 64 "a.cc" 1).1 4128 64 := rfl
  have hlt : wsub a 4128 < 64 := by
    unfold wsub
    split_ifs <;> omega
  rw [hst]
  unfold memset0
  simp only [if_pos hlt]

/-! ## Call-site keys -/

theorem digitChar_val (d : Nat) (h : d < 10) : (Nat.digitChar d).toNat - 48 = d := by
  interval_cases d <;> rfl

theorem digitChar_ne_sep (d : Nat) (h : d < 10) :
    Nat.digitChar d ≠ ':' ∧ Nat.digitChar d ≠ '-' := by
  interval_cases d <;> decide

theorem toDigitsCore_value (fuel : Nat) : ∀ (n : Nat) (ds : List Char), n < fuel →
    (Nat.toDigitsCore 10 fuel n ds).foldl (fun acc c => acc * 10 + (c.toNat - 48)) 0
      = ds.foldl (fun acc c => acc * 10 + (c.toNat - 48)) n := by
  induction fuel with
  | zero => intro n ds h; omega
  | succ fuel ih =>
    intro n ds h
    unfold Nat.toDigitsCore
    simp only []
    by_cases h0 : n / 10 = 0
    · rw [if_pos h0]
      simp only [List.foldl_cons, Nat.zero_mul, Nat.zero_add]
      rw [digitChar_val _ (Nat.mod_lt _ (by norm_num))]
      congr 1
      omega
    · rw [if_neg h0, ih (n / 10) _ (by omega)]
      simp only [List.foldl_cons]
      rw [digitChar_val _ (Nat.mod_lt _ (by norm_num))]
      congr 1
      omega

theorem toDigitsCore_chars (fuel : Nat) : ∀ (n : Nat) (ds : List Char) (c : Char),
    c ∈ Nat.toDigitsCore 10 fuel n ds → c ∈ ds ∨ (c ≠ ':' ∧ c ≠ '-') := by
  induction fuel with
  | zero =>
    intro n ds c h
    exact Or.inl h
  | succ fuel ih =>
    intro n ds c h
    unfold Nat.toDigitsCore at h
    simp only [] at h
    have hd := digitChar_ne_sep (n % 10) (Nat.mod_lt _ (by norm_num))
    by_cases h0 : n / 10 = 0
    · rw [if_pos h0] at h
      rcases List.mem_cons.mp h with e | e
      · exact Or.inr (e ▸ hd)
      · exact Or.inl e
    · rw [if_neg h0] at h
      rcases ih _ _ c h with e | e
      · rcases List.mem_cons.mp e with e1 | e1
        · exact Or.inr (e1 ▸ hd)
        · exact Or.inl e1
      · exact Or.inr e

theorem repr_chars (n : Nat) (c : Char) (h : c ∈ (Nat.repr n).data) : c ≠ ':' ∧ c ≠ '-' := by
  rcases toDigitsCore_chars (n + 1) n [] c h with e | e
  · exact absurd e (List.not_mem_nil _)
  · exact e

theorem repr_inj (a b : Nat) (h : Nat.repr a = Nat.repr b) : a = b := by
  have hd : Nat.toDigits 10 a = Nat.toDigits 10 b := congrArg String.data h
  have ha := toDigitsCore_value (a + 1) a [] (by omega)
  have hb := toDigitsCore_value (b + 1) b [] (by omega)
  simp only [List.foldl_nil] at ha hb
  unfold Nat.toDigits at hd
  rw [← ha, ← hb, hd]

theorem toString_int_chars (l : Int) (c : Char) (h : c ∈ (toString l).data) : c ≠ ':' := by
  cases l with
  | ofNat m => exact (repr_chars m c h).1
  | negSucc m =>
    have h1 : c ∈ '-' :: (Nat.repr (m + 1)).data := h
    rcases List.mem_cons.mp h1 with e | e
    · rw [e]
      decide
    · exact (repr_chars _ c e).1

theorem toString_int_inj (a b : Int) (h : toString a = toString b) : a = b := by
  have hd : (toString a).data = (toString b).data := congrArg String.data h
  cases a with
  | ofNat m =>
    cases b with
    | ofNat n =>
      have : Nat.repr m = Nat.repr n := h
      rw [repr_inj m n this]
    | negSucc n =>
      have h1 : (Nat.repr m).data = '-' :: (Nat.repr (n + 1)).data := hd
      have : '-' ∈ (Nat.repr m).data := by
        rw [h1]
        exact List.mem_cons_self _ _
      exact absurd rfl (repr_chars m _ this).2
  | negSucc m =>
    cases b with
    | ofNat n =>
      have h1 : '-' :: (Nat.repr (m + 1)).data = (Nat.repr n).data := hd
      have : '-' ∈ (Nat.repr n).data := by
        rw [← h1]
        exact List.mem_cons_self _ _
      exact absurd rfl (repr_chars n _ this).2
    | negSucc n =>
      have h1 : '-' :: (Nat.repr (m + 1)).data = '-' :: (Nat.repr (n + 1)).data := hd
      have h2 : (Nat.repr (m + 1)).data = (Nat.repr (n + 1)).data := (List.cons.inj h1).2
      have h3 : m + 1 = n + 1 := repr_inj _ _ (String.ext h2)
      have : m = n := by omega
      rw [this]

theorem split_at_last {α : Type} (c : α) : ∀ (l1 l2 r1 r2 : List α),
    c ∉ r1 → c ∉ r2 → l1 ++ c :: r1 = l2 ++ c :: r2 → l1 = l2 ∧ r1 = r2 := by
  intro l1
  induction l1 with
  | nil =>
    intro l2 r1 r2 h1 h2 h
    cases l2 with
    | nil => exact ⟨rfl, (List.cons.inj h).2⟩
    | cons a rest =>
      simp only [List.nil_append, List.cons_append, List.cons.injEq] at h
      exact absurd (h.2 ▸ List.mem_append_right rest (List.mem_cons_self c r2)) h1
  | cons a rest ih =>
    intro l2 r1 r2 h1 h2 h
    cases l2 with
    | nil =>
      simp only [List.nil_append, List.cons_append, List.cons.injEq] at h
      exact absurd (h.2 ▸ List.mem_append_right rest (List.mem_cons_self c r1)) h2
    | cons b rest2 =>
      simp only [List.cons_append, List.cons.injEq] at h
      obtain ⟨e1, e2⟩ := ih rest2 r1 r2 h1 h2 h.2
      exact ⟨by rw [h.1, e1], e2⟩

/-- Two call sites have the same key only if they are the same file and line. -/
theorem fileLine_inj (fA fB : String) (lA lB : Int)
    (h : fileLine fA lA = fileLine fB lB) : fA = fB ∧ lA = lB := by
  have hd : fA.data ++ ':' :: (toString lA).data = fB.data ++ ':' :: (toString lB).data := by
    have := congrArg String.data h
    unfold fileLine at this
    simpa [String.data_append] using this
  obtain ⟨e1, e2⟩ := split_at_last ':' _ _ _ _
    (fun hm => toString_int_chars lA ':' hm rfl) (fun hm => toString_int_chars lB ':' hm rfl) hd
  exact ⟨String.ext e1, toString_int_inj lA lB (String.ext e2)⟩

/-! ## `m61_realloc` after `m61_malloc` -/

theorem siteTotal_heavyAdd_self (key : String) (sz : Nat) (hsz : sz < 2 ^ 64)
    (t : List (String × Nat)) :
    siteTotal key (heavyAdd key sz t) = (siteTotal key t + sz) % 2 ^ 64 := by
  unfold siteTotal
  rw [heavyFind_heavyAdd_self]
  cases heavyFind key t with
  | none =>
    simp only [Option.getD_some, Option.getD_none, Nat.zero_add]
    exact (Nat.mod_eq_of_lt hsz).symm
  | some v => simp [wrap]

theorem siteTotal_heavyAdd_other (key : String) (sz : Nat) (k : String) (hk : k ≠ key)
    (t : List (String × Nat)) :
    siteTotal k (heavyAdd key sz t) = siteTotal k t := by
  unfold siteTotal
  rw [heavyFind_heavyAdd_other key sz k hk]

theorem findIndex_result (ptr : Nat) (l : List Nat) (i : Nat) (index : Int) :
    findIndex ptr l i index = index ∨
      ∃ j, j < l.length ∧ l[j]? = some ptr ∧ findIndex ptr l i index = ((i + j : Nat) : Int) := by
  by_cases h : ptr ∈ l
  · right; exact findIndex_mem ptr l i index h
  · left; exact findIndex_not_mem ptr l i index h

theorem eraseAt_scanned_inv (ptr : Nat) (l l1 : List Nat)
    (h : eraseAt l (findIndex ptr (scanned l) 0 (-1)) = some l1) :
    ∃ j, j < l.length ∧ l[j]? = some ptr ∧ l1 = l.eraseIdx j ∧
      findIndex ptr (scanned l) 0 (-1) = (j : Int) := by
  rcases findIndex_result ptr (scanned l) 0 (-1) with h0 | ⟨j, hj, hget, hfi⟩
  · rw [h0] at h
    unfold eraseAt at h
    rw [if_neg (by omega)] at h
    exact Option.noConfusion h
  · rw [hfi] at h
    unfold eraseAt at h
    have hget2 : l[j]? = some ptr := by
      unfold scanned at hget
      rw [List.getElem?_take] at hget
      split_ifs at hget with hlt
      exact hget
    have hjl : j < l.length := by
      rcases Nat.lt_or_ge j l.length with h1 | h1
      · exact h1
      · rw [List.getElem?_eq_none h1] at hget2
        exact Option.noConfusion hget2
    have hc : (0 : Int) ≤ ((0 + j : Nat) : Int) ∧ ((0 + j : Nat) : Int) < (l.length : Int) := by
      constructor
      · exact Int.ofNat_nonneg _
      · exact_mod_cast (by omega : 0 + j < l.length)
    rw [if_pos hc] at h
    injection h with h
    refine ⟨j, hjl, hget2, ?_, ?_⟩
    · rw [← h]
      simp
    · rw [hfi, Nat.zero_add]

theorem eraseIdx_append_pair (l : List Nat) (p q : Nat) (j : Nat) (hp : p ∉ l) (hq : q ≠ p)
    (hget : (l ++ [p, q])[j]? = some p) : (l ++ [p, q]).eraseIdx j = l ++ [q] := by
  induction l generalizing j with
  | nil =>
    cases j with
    | zero => rfl
    | succ j =>
      cases j with
      | zero =>
        simp at hget
        exact absurd hget hq
      | succ j => simp at hget
  | cons a rest ih =>
    cases j with
    | zero =>
      simp at hget
      exact absurd (hget ▸ List.mem_cons_self _ _) hp
    | succ j =>
      simp only [List.cons_append, List.getElem?_cons_succ] at hget
      simp only [List.cons_append, List.eraseIdx_cons_succ]
      rw [ih j (fun h => hp (List.mem_cons_of_mem _ h)) hget]



theorem realloc_ret_inv (hsz : Nat) (b : Nat → Nat) (w : State) (p sz : Nat) (f : String)
    (l : Int) (w2 : State) (q : Nat) (hsz0 : sz ≠ 0) (hp : p ≠ 0)
    (h : m61_realloc hsz b w p sz f l = .ret w2 q) :
    q = (m61_malloc hsz b w sz f l).2 ∧
    m61_free hsz
      (memcpy (m61_malloc hsz b w sz f l).1 (m61_malloc hsz b w sz f l).2 p
        (ofInt (min (toInt32 sz)
          (toInt32 ((m61_malloc hsz b w sz f l).1.hdr (wsub p (wrap (hsz * hsz)))).sz))))
      p f l = .ret w2 () := by
  unfold m61_realloc at h
  rw [if_neg hsz0] at h
  simp only [if_neg hp] at h
  generalize memcpy (m61_malloc hsz b w sz f l).1 (m61_malloc hsz b w sz f l).2 p
      (ofInt (min (toInt32 sz)
        (toInt32 ((m61_malloc hsz b w sz f l).1.hdr (wsub p (wrap (hsz * hsz)))).sz))) = wc at h ⊢
  cases hr : m61_free hsz wc p f l with
  | ret w3 u =>
    rw [hr] at h
    simp only at h
    injection h with h1 h2
    subst h1
    exact ⟨h2.symm, rfl⟩
  | abort b2 f2 l2 p2 i =>
    rw [hr] at h
    exact Outcome.noConfusion h
  | undefined u =>
    rw [hr] at h
    exact Outcome.noConfusion h

/-- C12: let `m61_malloc(s, A)` return a non-null `p` that was not yet in
`activeAlloc`, and let `m61_realloc(p, t, B)` with `t > 0` then return a
non-null `q` different from `p`.  Then the header in front of `q` records size
`t`; when the call sites `A` and `B` differ in file or line they have
different table entries, the total of `A` has grown by `s` and that of `B` by
`t`; when `A` and `B` are the same site its total has grown by `s + t` (all as
unsigned 64-bit additions); and `q` is in `activeAlloc` while `p` is not. -/
theorem realloc_after_malloc (hsz : Nat) (bA bB : Nat → Nat) (w w2 : State) (s t q : Nat)
    (fA fB : String) (lA lB : Int)
    (hs : s < 2 ^ 64) (ht : t < 2 ^ 64) (ht0 : t ≠ 0)
    (hp : (m61_malloc hsz bA w s fA lA).2 ≠ 0)
    (hfresh : (m61_malloc hsz bA w s fA lA).2 ∉ w.activeAlloc)
    (hre : m61_realloc hsz bB (m61_malloc hsz bA w s fA lA).1 (m61_malloc hsz bA w s fA lA).2
      t fB lB = .ret w2 q)
    (hq : q ≠ 0) (hpq : q ≠ (m61_malloc hsz bA w s fA lA).2)
    (hrawB : bB (wrap (wrap (t + hsz) + 1)) < 2 ^ 64) :
    (w2.hdr (wsub q hsz)).sz = t ∧
    ((fA, lA) ≠ (fB, lB) →
      fileLine fA lA ≠ fileLine fB lB ∧
      siteTotal (fileLine fA lA) w2.heavyTracker
        = (siteTotal (fileLine fA lA) w.heavyTracker + s) % 2 ^ 64 ∧
      siteTotal (fileLine fB lB) w2.heavyTracker
        = (siteTotal (fileLine fB lB) w.heavyTracker + t) % 2 ^ 64) ∧
    ((fA, lA) = (fB, lB) →
      siteTotal (fileLine fA lA) w2.heavyTracker
        = (siteTotal (fileLine fA lA) w.heavyTracker + s + t) % 2 ^ 64) ∧
    q ∈ w2.activeAlloc ∧
    (m61_malloc hsz bA w s fA lA).2 ∉ w2.activeAlloc := by
  have hcA := malloc_ok_cond hsz bA w s fA lA hp
  have hA := malloc_ok hsz bA w s fA lA hcA
  generalize hr1 : m61_malloc hsz bA w s fA lA = r1 at hp hfresh hre hpq hA
  obtain ⟨hq2, hfree⟩ := realloc_ret_inv hsz bB r1.1 r1.2 t fB lB w2 q ht0 hp hre
  have hcB := malloc_ok_cond hsz bB r1.1 t fB lB (hq2 ▸ hq)
  have hB := malloc_ok hsz bB r1.1 t fB lB hcB
  generalize hr2 : m61_malloc hsz bB r1.1 t fB lB = r2 at hq2 hfree hB
  obtain ⟨_, _, _, _, _, l1, he, hw2⟩ := free_ret_inv hsz _ r1.2 fB lB w2 hfree hp
  -- components of the two allocations
  have hAact : r1.1.activeAlloc = w.activeAlloc ++ [r1.2] := by rw [hA]
  have hAheavy : r1.1.heavyTracker = heavyAdd (fileLine fA lA) s w.heavyTracker := by rw [hA]
  have hBact : r2.1.activeAlloc = r1.1.activeAlloc ++ [r2.2] := by rw [hB]
  have hBheavy : r2.1.heavyTracker = heavyAdd (fileLine fB lB) t r1.1.heavyTracker := by rw [hB]
  have hBptr : r2.2 = wrap (bB (wrap (wrap (t + hsz) + 1)) + hsz) := by rw [hB]
  have hBhdr : (r2.1.hdr (bB (wrap (wrap (t + hsz) + 1)))).sz = t := by
    rw [hB]
    simp only [if_true]
  have hraw : wsub q hsz = bB (wrap (wrap (t + hsz) + 1)) := by
    rw [hq2, hBptr]
    exact wsub_add_cancel hrawB
  have hheavy : w2.heavyTracker
      = heavyAdd (fileLine fB lB) t (heavyAdd (fileLine fA lA) s w.heavyTracker) := by
    rw [hw2]
    show r2.1.heavyTracker = _
    rw [hBheavy, hAheavy]
  have hact : eraseAt ((w.activeAlloc ++ [r1.2]) ++ [r2.2])
      (findIndex r1.2 (scanned ((w.activeAlloc ++ [r1.2]) ++ [r2.2])) 0 (-1)) = some l1 := by
    rw [← hAact, ← hBact]
    exact he
  have hw2act : w2.activeAlloc = l1 := by rw [hw2]
  obtain ⟨j, _, hget, hl1, _⟩ := eraseAt_scanned_inv r1.2 _ l1 hact
  have hlist : (w.activeAlloc ++ [r1.2]) ++ [r2.2] = w.activeAlloc ++ [r1.2, r2.2] := by simp
  rw [hlist] at hget hl1
  have hl1b : l1 = w.activeAlloc ++ [r2.2] := by
    rw [hl1]
    exact eraseIdx_append_pair w.activeAlloc r1.2 r2.2 j hfresh (hq2 ▸ hpq) hget
  refine ⟨?_, ?_, ?_, ?_, ?_⟩
  · rw [hraw, hw2]
    show (if bB (wrap (wrap (t + hsz) + 1)) = wsub r1.2 hsz then _ else _ : metAlloc).sz = t
    split_ifs with hc
    · show (r2.1.hdr (wsub r1.2 hsz)).sz = t
      rw [← hc]
      exact hBhdr
    · exact hBhdr
  · intro hsite
    have hne : fileLine fA lA ≠ fileLine fB lB := by
      intro e
      obtain ⟨e1, e2⟩ := fileLine_inj fA fB lA lB e
      exact hsite (by rw [e1, e2])
    rw [hheavy]
    refine ⟨hne, ?_, ?_⟩
    · rw [siteTotal_heavyAdd_other _ _ _ hne, siteTotal_heavyAdd_self _ _ hs]
    · rw [siteTotal_heavyAdd_self _ _ ht, siteTotal_heavyAdd_other _ _ _ (Ne.symm hne)]
  · intro hsite
    have heq : fileLine fA lA = fileLine fB lB := by
      rw [(Prod.mk.inj hsite).1, (Prod.mk.inj hsite).2]
    rw [hheavy, ← heq, siteTotal_heavyAdd_self _ _ ht, siteTotal_heavyAdd_self _ _ hs]
    omega
  · rw [hw2act, hl1b, hq2]
    simp
  · rw [hw2act, hl1b]
    intro hmem
    rcases List.mem_append.mp hmem with h1 | h1
    · exact hfresh h1
    · simp at h1
      exact hpq (hq2.trans h1.symm)

/-- Witness for C12: the scenario of `test046.cc`, `malloc(50)` at line 15 then
`realloc(aa, 51)` at line 22, with the two blocks served from raw addresses
`4096` and `8192`: the recorded sizes are `50` and `51`, and the table holds
`50` for `test046.cc:15` and `51` for `test046.cc:22`. -/
theorem realloc_after_malloc_witness :
    ((50 : Nat) < 2 ^ 64 ∧ (51 : Nat) < 2 ^ 64 ∧ (51 : Nat) ≠ 0 ∧
      (m61_malloc 32 base4096 init 50 "test046.cc" 15).2 ≠ 0 ∧
      (m61_malloc 32 base4096 init 50 "test046.cc" 15).2 ∉ init.activeAlloc ∧
      m61_realloc 32 base8192 (m61_malloc 32 base4096 init 50 "test046.cc" 15).1
        (m61_malloc 32 base4096 init 50 "test046.cc" 15).2 51 "test046.cc" 22
        = .ret afterRealloc51 8224 ∧
      (8224 : Nat) ≠ 0 ∧
      8224 ≠ (m61_malloc 32 base4096 init 50 "test046.cc" 15).2 ∧
      base8192 (wrap (wrap (51 + 32) + 1)) < 2 ^ 64) ∧
    (afterMalloc50.hdr 4096).sz = 50 ∧
    (afterRealloc51.hdr (wsub 8224 32)).sz = 51 ∧
    siteTotal "test046.cc:15" afterRealloc51.heavyTracker = 50 ∧
    siteTotal "test046.cc:22" afterRealloc51.heavyTracker = 51 ∧
    afterRealloc51.heavyTracker = [("test046.cc:15", 50), ("test046.cc:22", 51)] ∧
    8224 ∈ afterRealloc51.activeAlloc ∧
    (m61_malloc 32 base4096 init 50 "test046.cc" 15).2 ∉ afterRealloc51.activeAlloc := by
  have h := realloc_after_malloc 32 base4096 base8192 init afterRealloc51 50 51 8224
    "test046.cc" "test046.cc" 15 22 (by decide) (by decide) (by decide) (by decide)
    (by decide) rfl (by decide) (by decide) (by decide)
  have hk1 : fileLine "test046.cc" 15 = "test046.cc:15" := by decide
  have hk2 : fileLine "test046.cc" 22 = "test046.cc:22" := by decide
  have ht := h.2.1 (by decide)
  rw [hk1, hk2] at ht
  exact ⟨⟨by decide, by decide, by decide, by decide, by decide, rfl, by decide, by decide,
      by decide⟩, by decide, h.1, ht.2.1.trans (by decide), ht.2.2.trans (by decide),
    by decide, h.2.2.2.1, h.2.2.2.2⟩

/-! ## Reachable states under well-behaved actions -/

theorem state_of_ret {α : Type} (o : Outcome α) (w1 : State) (h : o.state? = some w1) :
    ∃ v, o = .ret w1 v := by
  cases o with
  | ret w v =>
    simp only [Outcome.state?, Option.some.injEq] at h
    subst h
    exact ⟨v, rfl⟩
  | abort b f l p i => simp [Outcome.state?] at h
  | undefined u => simp [Outcome.state?] at h

theorem wrap_lt_word (n : Nat) : wrap n < 2 ^ 64 := by
  unfold wrap
  omega

theorem sameTracking_memcpy (w : State) (dst src n : Nat) :
    SameTracking w (memcpy w dst src n) :=
  ⟨rfl, rfl, rfl, rfl, rfl, rfl, rfl, rfl, rfl⟩

theorem sameTracking_memset0 (w : State) (ptr n : Nat) : SameTracking w (memset0 w ptr n) :=
  ⟨rfl, rfl, rfl, rfl, rfl, rfl, rfl, rfl, rfl⟩

theorem sameTracking_store (w : State) (a v : Nat) : SameTracking w (store w a v) :=
  ⟨rfl, rfl, rfl, rfl, rfl, rfl, rfl, rfl, rfl⟩

theorem baseFresh_congr {hsz : Nat} {w w1 : State} {raw : Nat} (h : BaseFresh hsz w raw)
    (hact : w1.activeAlloc = w.activeAlloc) : BaseFresh hsz w1 raw := by
  unfold BaseFresh at *
  rw [hact]
  exact h

theorem preserved_free_state {hsz : Nat} {P : State → Prop} (hP : Preserved hsz P) (w : State)
    (p : Nat) (f : String) (l : Int) (w1 : State) (h : P w) (hp : p < 2 ^ 64)
    (hs : (m61_free hsz w p f l).state? = some w1) : P w1 := by
  obtain ⟨v, hv⟩ := state_of_ret _ w1 hs
  cases v
  exact hP.free w p f l w1 h hp hv

theorem preserved_calloc {hsz : Nat} {P : State → Prop} (hP : Preserved hsz P) (w : State)
    (b : Nat → Nat) (n sz : Nat) (f : String) (l : Int) (w1 : State) (h : P w)
    (hwf : (Call.calloc b n sz f l).wf hsz w)
    (hs : (m61_calloc hsz b w n sz f l).state? = some w1) : P w1 := by
  obtain ⟨_, _, hfresh⟩ := hwf
  have hm : P (m61_malloc hsz b w (wrap (n * sz)) f l).1 :=
    hP.malloc w b (wrap (n * sz)) f l h (wrap_lt_word _) hfresh
  unfold m61_calloc at hs
  by_cases h1 : n = 0
  · rw [if_pos h1] at hs
    simp [Outcome.state?] at hs
  rw [if_neg h1] at hs
  by_cases h2 : sz > SIZE_MAX / n
  · rw [if_pos h2] at hs
    simp only [Outcome.state?, Option.some.injEq] at hs
    subst hs
    exact hP.frame w _ h ⟨rfl, rfl, rfl, rfl, rfl, rfl, rfl, rfl, rfl⟩
  rw [if_neg h2] at hs
  by_cases h3 : (m61_malloc hsz b w (wrap (n * sz)) f l).2 ≠ 0
  · simp only [if_pos h3, Outcome.state?, Option.some.injEq] at hs
    subst hs
    exact hP.frame _ _ hm (sameTracking_memset0 _ _ _)
  · simp only [if_neg h3, Outcome.state?, Option.some.injEq] at hs
    subst hs
    exact hm

theorem realloc_size_zero (hsz : Nat) (b : Nat → Nat) (w : State) (p : Nat) (f : String)
    (l : Int) : m61_realloc hsz b w p 0 f l = (m61_free hsz w p f l).returning 0 := by
  unfold m61_realloc
  rw [if_pos rfl]
  cases m61_free hsz w p f l <;> rfl

theorem realloc_null_ptr (hsz : Nat) (b : Nat → Nat) (w : State) (sz : Nat) (f : String)
    (l : Int) (h0 : sz ≠ 0) :
    m61_realloc hsz b w 0 sz f l
      = .ret (m61_malloc hsz b w sz f l).1 (m61_malloc hsz b w sz f l).2 := by
  unfold m61_realloc
  rw [if_neg h0]
  simp only [if_true]

theorem preserved_realloc {hsz : Nat} {P : State → Prop} (hP : Preserved hsz P) (w : State)
    (b : Nat → Nat) (p sz : Nat) (f : String) (l : Int) (w1 : State) (h : P w)
    (hwf : (Call.realloc b p sz f l).wf hsz w)
    (hs : (m61_realloc hsz b w p sz f l).state? = some w1) : P w1 := by
  obtain ⟨hp, hsz64, hfresh⟩ := hwf
  obtain ⟨q, hq⟩ := state_of_ret _ w1 hs
  by_cases h0 : sz = 0
  · subst h0
    have h1 := realloc_size_zero hsz b w p f l
    rw [hq] at h1
    cases hr : m61_free hsz w p f l with
    | ret w2 u =>
      rw [hr] at h1
      simp only [Outcome.returning] at h1
      injection h1 with h2 _
      subst h2
      cases u
      exact hP.free w p f l w1 h hp hr
    | abort b2 f2 l2 p2 i =>
      rw [hr] at h1
      exact Outcome.noConfusion h1
    | undefined u =>
      rw [hr] at h1
      exact Outcome.noConfusion h1
  · have hm : P (m61_malloc hsz b w sz f l).1 := hP.malloc w b sz f l h hsz64 hfresh
    by_cases hp0 : p = 0
    · subst hp0
      have h1 := realloc_null_ptr hsz b w sz f l h0
      rw [hq] at h1
      injection h1 with h2 _
      subst h2
      exact hm
    · obtain ⟨_, hfree⟩ := realloc_ret_inv hsz b w p sz f l w1 q h0 hp0 hq
      exact hP.free _ p f l w1 (hP.frame _ _ hm (sameTracking_memcpy _ _ _ _)) hp hfree

theorem preserved_step {hsz : Nat} {P : State → Prop} (hP : Preserved hsz P) (w w1 : State)
    (c : Call) (h : P w) (hwf : c.wf hsz w) (hs : step hsz w c = some w1) : P w1 := by
  cases c with
  | malloc b sz f l =>
    simp only [step, Option.some.injEq] at hs
    subst hs
    exact hP.malloc w b sz f l h hwf.1 hwf.2
  | free p f l => exact preserved_free_state hP w p f l w1 h hwf hs
  | calloc b n sz f l => exact preserved_calloc hP w b n sz f l w1 h hwf hs
  | realloc b p sz f l => exact preserved_realloc hP w b p sz f l w1 h hwf hs
  | store a v =>
    simp only [step, Option.some.injEq] at hs
    subst hs
    exact hP.frame w _ h (sameTracking_store w a v)
  | storeHdr a m =>
    simp only [step, Option.some.injEq] at hs
    subst hs
    exact hP.image w a m h hwf.2

theorem reachable_induction {hsz : Nat} {P : State → Prop} (hP : Preserved hsz P)
    (h0 : P init) (w : State) (hw : Reachable hsz w) : P w := by
  induction hw with
  | start => exact h0
  | next w w1 c _ hwf hs ih => exact preserved_step hP w w1 c ih hwf hs

/-! ## The bookkeeping invariant -/

theorem wsub_inj {a b hsz : Nat} (ha : a < 2 ^ 64) (hb : b < 2 ^ 64)
    (h : wsub a hsz = wsub b hsz) : a = b := by
  unfold wsub at h
  split_ifs at h <;> omega

theorem reachable_afterMalloc8 : Reachable 32 afterMalloc8 :=
  Reachable.next init afterMalloc8 (Call.malloc base4096 8 "a.cc" 1) Reachable.start
    ⟨by decide, by decide, fun _ a ha => absurd ha (List.not_mem_nil a)⟩ rfl

theorem reachable_afterMalloc200 : Reachable 32 afterMalloc200 := by
  have h1 : Reachable 32 (m61_malloc 32 base4096 init 200 "a.cc" 1).1 :=
    Reachable.next init _ (Call.malloc base4096 200 "a.cc" 1) Reachable.start
      ⟨by decide, by decide, fun _ a ha => absurd ha (List.not_mem_nil a)⟩ rfl
  exact Reachable.next _ afterMalloc200 (Call.malloc base8192 8 "a.cc" 2) h1
    ⟨by decide, by decide, fun _ => by decide⟩ rfl

theorem reachable_overlaid : Reachable 32 overlaid := by
  have h1 : Reachable 32 (store afterMalloc200 4304 1) :=
    Reachable.next afterMalloc200 _ (Call.store 4304 1) reachable_afterMalloc200
      ⟨4128, by decide, by decide, by decide⟩ rfl
  have h2 : Reachable 32 (store (store afterMalloc200 4304 1) 4305 1) :=
    Reachable.next _ _ (Call.store 4305 1) h1 ⟨4128, by decide, by decide, by decide⟩ rfl
  exact Reachable.next _ overlaid (Call.storeHdr 4296 ⟨0, true, true, "", 0⟩) h2
    ⟨⟨4128, by decide, by decide, by decide⟩, by decide⟩ rfl

/-- C20 (failing input): with the blocks `4128` (200 bytes) and `8224` live and
the header image of `overlaid` inside the first payload, `m61_free(4328, ..)`
passes the heap-range test, the `everAllocated` and `allocated` tests, the
marker test (the byte at `4328 + 0` is the marker of the first block) and the
loop of lines 131-144 (`4328 < end` is false for the first block), and reaches
line 149 with the saved index still `-1`: the erase is outside the vector.
The bytes `4296 .. 4327` in front of the pointer are payload bytes of the
block `4128`, all zero except the two the client has set. -/
theorem release_without_entry :
    Reachable 32 overlaid ∧
    overlaid.activeAlloc = [4128, 8224] ∧
    (overlaid.hdr 4096).sz = 200 ∧
    (∀ a, 4296 ≤ a → a < 4328 → overlaid.byte a = if a = 4304 ∨ a = 4305 then 1 else 0) ∧
    overlaid.hdr (wsub 4328 32) = ⟨0, true, true, "", 0⟩ ∧
    overlaid.byte 4328 = magic_key ∧
    insideOther 32 overlaid 4328 (scanned overlaid.activeAlloc) = false ∧
    findIndex 4328 (scanned overlaid.activeAlloc) 0 (-1) = -1 ∧
    m61_free 32 overlaid 4328 "a.cc" 9 = .undefined .eraseOutOfRange := by
  refine ⟨reachable_overlaid, by decide, by decide, ?_, by decide, by decide, by decide,
    by decide, rfl⟩
  intro a h1 h2
  interval_cases a <;> rfl

/-! ## Call-site totals and `total_size` -/

theorem heavyFind_none_iff (key : String) (t : List (String × Nat)) :
    heavyFind key t = none ↔ key ∉ t.map Prod.fst := by
  induction t with
  | nil => simp [heavyFind]
  | cons e rest ih =>
    obtain ⟨k0, v0⟩ := e
    rw [heavyFind_cons]
    by_cases hk : k0 = key
    · simp [hk]
    · rw [if_neg hk, ih]
      simp only [List.map_cons, List.mem_cons, not_or]
      constructor
      · intro h
        exact ⟨fun e => hk e.symm, h⟩
      · intro h
        exact h.2

theorem map_bump_keys (key : String) (sz : Nat) (t : List (String × Nat)) :
    (t.map (fun kv => if kv.1 = key then (kv.1, wrap (kv.2 + sz)) else kv)).map Prod.fst
      = t.map Prod.fst := by
  induction t with
  | nil => rfl
  | cons e rest ih =>
    simp only [List.map_cons, ih]
    congr 1
    split_ifs <;> rfl

theorem map_bump_absent (key : String) (sz : Nat) (t : List (String × Nat))
    (h : key ∉ t.map Prod.fst) :
    t.map (fun kv => if kv.1 = key then (kv.1, wrap (kv.2 + sz)) else kv) = t := by
  induction t with
  | nil => rfl
  | cons e rest ih =>
    simp only [List.map_cons, List.mem_cons, not_or] at h
    simp only [List.map_cons]
    rw [ih h.2, if_neg (fun e2 => h.1 e2.symm)]

theorem tableSum_cons (e : String × Nat) (t : List (String × Nat)) :
    tableSum (e :: t) = e.2 + tableSum t := by
  simp [tableSum]

theorem tableSum_bump (key : String) (sz : Nat) (t : List (String × Nat))
    (hnd : (t.map Prod.fst).Nodup) (v : Nat) (hv : heavyFind key t = some v) :
    tableSum (t.map (fun kv => if kv.1 = key then (kv.1, wrap (kv.2 + sz)) else kv)) + v
      = tableSum t + wrap (v + sz) := by
  induction t with
  | nil => simp [heavyFind] at hv
  | cons e rest ih =>
    obtain ⟨k0, v0⟩ := e
    simp only [List.map_cons, List.nodup_cons] at hnd
    rw [heavyFind_cons] at hv
    rw [List.map_cons, tableSum_cons, tableSum_cons]
    by_cases hk : k0 = key
    · rw [if_pos hk] at hv
      injection hv with hv
      subst hv
      rw [if_pos hk, map_bump_absent key sz rest (hk ▸ hnd.1)]
      simp only []
      omega
    · rw [if_neg hk] at hv
      rw [if_neg hk]
      have := ih hnd.2 hv
      simp only [] at this ⊢
      omega

theorem tableSum_append_single (t : List (String × Nat)) (e : String × Nat) :
    tableSum (t ++ [e]) = tableSum t + e.2 := by
  simp [tableSum]

theorem heavyAdd_keys_nodup (key : String) (sz : Nat) (t : List (String × Nat))
    (hnd : (t.map Prod.fst).Nodup) : ((heavyAdd key sz t).map Prod.fst).Nodup := by
  unfold heavyAdd
  split_ifs with h
  · rw [map_bump_keys]
    exact hnd
  · have hn : heavyFind key t = none := by
      cases hf : heavyFind key t with
      | none => rfl
      | some v => simp [hf] at h
    rw [List.map_append, List.nodup_append]
    refine ⟨hnd, List.nodup_singleton _, ?_⟩
    intro a ha hb
    simp only [List.map_cons, List.map_nil, List.mem_singleton] at hb
    exact (heavyFind_none_iff key t).mp hn (hb ▸ ha)

theorem heavyAdd_tableSum (key : String) (sz : Nat) (t : List (String × Nat))
    (hnd : (t.map Prod.fst).Nodup) :
    tableSum (heavyAdd key sz t) % 2 ^ 64 = (tableSum t + sz) % 2 ^ 64 := by
  unfold heavyAdd
  cases hf : heavyFind key t with
  | none =>
    rw [if_neg (by simp)]
    rw [tableSum_append_single]
  | some v =>
    rw [if_pos (Option.isSome_some : (some v).isSome = true)]
    have := tableSum_bump key sz t hnd v hf
    generalize tableSum (t.map (fun kv => if kv.1 = key then (kv.1, wrap (kv.2 + sz))
      else kv)) = s1 at this ⊢
    unfold wrap at this
    omega

theorem tableInv_init : TableInv init := ⟨List.nodup_nil, rfl⟩

theorem tableInv_frame (w w1 : State) (h : TableInv w) (hs : SameTracking w w1) :
    TableInv w1 := by
  obtain ⟨_, hheavy, _, _, _, _, htot, _⟩ := hs
  unfold TableInv at *
  rw [hheavy, htot]
  exact h

theorem tableInv_malloc (hsz : Nat) (w : State) (b : Nat → Nat) (sz : Nat) (f : String)
    (l : Int) (h : TableInv w) : TableInv (m61_malloc hsz b w sz f l).1 := by
  by_cases hc : b (wrap (wrap (sz + hsz) + 1)) = 0 ∨ hsz > SIZE_MAX - sz
  · rw [malloc_fail hsz b w sz f l hc]
    exact tableInv_frame w _ h ⟨rfl, rfl, rfl, rfl, rfl, rfl, rfl, rfl, rfl⟩
  · rw [malloc_ok hsz b w sz f l hc]
    obtain ⟨h1, h2⟩ := h
    refine ⟨heavyAdd_keys_nodup _ _ _ h1, ?_⟩
    simp only []
    rw [heavyAdd_tableSum _ _ _ h1]
    have key : (tableSum w.heavyTracker + sz) % 2 ^ 64 = wrap (w.gstats.total_size + sz) := by
      rw [← h2]
      unfold wrap
      omega
    split_ifs <;> exact key

theorem tableInv_free (hsz : Nat) (w : State) (p : Nat) (f : String) (l : Int) (w1 : State)
    (h : TableInv w) (hf : m61_free hsz w p f l = .ret w1 ()) : TableInv w1 := by
  rcases free_cases hsz w p f l with h1 | ⟨bug, i, h1⟩ | h1 | ⟨l1, h1⟩
  · rw [h1] at hf
    injection hf with hw _
    subst hw
    exact h
  · rw [h1] at hf
    exact Outcome.noConfusion hf
  · rw [h1] at hf
    exact Outcome.noConfusion hf
  · rw [h1] at hf
    injection hf with hw _
    subst hw
    exact ⟨h.1, h.2⟩

theorem tableInv_preserved (hsz : Nat) : Preserved hsz TableInv :=
  { malloc := fun w b sz f l h _ _ => tableInv_malloc hsz w b sz f l h
    free := fun w p f l w1 h _ hf => tableInv_free hsz w p f l w1 h hf
    frame := fun w w1 h hs => tableInv_frame w w1 h hs
    image := fun _ _ _ h _ => h }

theorem tableInv_reachable (hsz : Nat) (w : State) (hw : Reachable hsz w) : TableInv w :=
  reachable_induction (tableInv_preserved hsz) tableInv_init w hw

theorem le_tableSum_of_mem (t : List (String × Nat)) (e : String × Nat) (he : e ∈ t) :
    e.2 ≤ tableSum t := by
  induction t with
  | nil => exact absurd he (List.not_mem_nil _)
  | cons a rest ih =>
    rw [tableSum_cons]
    rcases List.mem_cons.mp he with h | h
    · rw [h]
      omega
    · have := ih h
      omega

theorem reachable_wrappedTotals : Reachable 32 wrappedTotals := by
  have h1 : Reachable 32 (m61_malloc 32 base4096 init (2 ^ 63) "a.cc" 1).1 :=
    Reachable.next init _ (Call.malloc base4096 (2 ^ 63) "a.cc" 1) Reachable.start
      ⟨by decide, by decide, fun _ a ha => absurd ha (List.not_mem_nil a)⟩ rfl
  have h2 : Reachable 32 afterBigFree :=
    Reachable.next _ afterBigFree (Call.free 4128 "a.cc" 2) h1
      (show (4128 : Nat) < 2 ^ 64 by decide) rfl
  exact Reachable.next afterBigFree wrappedTotals (Call.malloc base4096 (2 ^ 63) "b.cc" 3) h2
    ⟨by decide, by decide, fun _ a ha => absurd ha (List.not_mem_nil a)⟩ rfl

/-- C19 (counterexample): allocating `2^63` bytes at `a.cc:1`, freeing them, and
allocating `2^63` bytes at `b.cc:3` reaches a state with `total_size == 0`
(the counter has wrapped) in which the two call-site totals are `2^63`, not
`0`. -/
theorem total_zero_with_nonzero_sites :
    Reachable 32 wrappedTotals ∧
    wrappedTotals.gstats.total_size = 0 ∧
    wrappedTotals.heavyTracker = [("a.cc:1", 2 ^ 63), ("b.cc:3", 2 ^ 63)] ∧
    ¬ (wrappedTotals.gstats.total_size = 0 → ∀ e ∈ wrappedTotals.heavyTracker, e.2 = 0) := by
  refine ⟨reachable_wrappedTotals, by decide, by decide, ?_⟩
  intro h
  have h1 := h (by decide) ("a.cc:1", 2 ^ 63) (by decide)
  exact absurd h1 (by decide)

/-- C19 (amended): in every reachable state the call-site totals add up to
`total_size` modulo `2^64`; when their sum is below `2^64`, every call-site
total is at most `total_size`, and `total_size == 0` implies that every
call-site total is `0`. -/
theorem site_totals_sum (hsz : Nat) (w : State) (hw : Reachable hsz w) :
    tableSum w.heavyTracker % 2 ^ 64 = w.gstats.total_size ∧
    (tableSum w.heavyTracker < 2 ^ 64 →
      (∀ e ∈ w.heavyTracker, e.2 ≤ w.gstats.total_size) ∧
      (w.gstats.total_size = 0 → ∀ e ∈ w.heavyTracker, e.2 = 0)) := by
  obtain ⟨_, h2⟩ := tableInv_reachable hsz w hw
  refine ⟨h2, ?_⟩
  intro hlt
  rw [Nat.mod_eq_of_lt hlt] at h2
  constructor
  · intro e he
    rw [← h2]
    exact le_tableSum_of_mem _ e he
  · intro h0 e he
    have := le_tableSum_of_mem _ e he
    omega

/-- Witness for C19 (amended): the state after `m61_malloc(8, "a.cc", 1)`. -/
theorem site_totals_sum_witness :
    Reachable 32 afterMalloc8 ∧
    tableSum afterMalloc8.heavyTracker % 2 ^ 64 = afterMalloc8.gstats.total_size ∧
    tableSum afterMalloc8.heavyTracker < 2 ^ 64 ∧
    (∀ e ∈ afterMalloc8.heavyTracker, e.2 ≤ afterMalloc8.gstats.total_size) :=
  ⟨reachable_afterMalloc8, (site_totals_sum 32 afterMalloc8 reachable_afterMalloc8).1,
    by decide,
    ((site_totals_sum 32 afterMalloc8 reachable_afterMalloc8).2 (by decide)).1⟩

/-! ## Statistics after a scenario of allocations and frees -/

theorem liveBytes_cons (b : Nat × Nat) (live : List (Nat × Nat)) :
    liveBytes (b :: live) = b.2 + liveBytes live := by
  simp [liveBytes]

theorem liveBytes_append_single (live : List (Nat × Nat)) (b : Nat × Nat) :
    liveBytes (live ++ [b]) = liveBytes live + b.2 := by
  simp [liveBytes]

theorem removeBlock_spec (p : Nat) (live : List (Nat × Nat)) (h : p ∈ live.map Prod.fst) :
    ∃ s, (p, s) ∈ live ∧ (removeBlock p live).length + 1 = live.length ∧
      liveBytes (removeBlock p live) + s = liveBytes live ∧
      ∀ b ∈ removeBlock p live, b ∈ live := by
  induction live with
  | nil => simp at h
  | cons b rest ih =>
    unfold removeBlock
    by_cases hb : b.1 = p
    · rw [if_pos hb]
      refine ⟨b.2, ?_, rfl, ?_, ?_⟩
      · rw [← hb]
        exact List.mem_cons_self _ _
      · rw [liveBytes_cons]
        omega
      · intro c hc
        exact List.mem_cons_of_mem _ hc
    · rw [if_neg hb]
      have hr : p ∈ rest.map Prod.fst := by
        simp only [List.map_cons, List.mem_cons] at h
        rcases h with h | h
        · exact absurd h.symm hb
        · exact h
      obtain ⟨s, hs, hl, hsum, hsub⟩ := ih hr
      refine ⟨s, List.mem_cons_of_mem _ hs, ?_, ?_, ?_⟩
      · simp only [List.length_cons]
        omega
      · rw [liveBytes_cons, liveBytes_cons]
        omega
      · intro c hc
        rcases List.mem_cons.mp hc with h1 | h1
        · rw [h1]
          exact List.mem_cons_self _ _
        · exact List.mem_cons_of_mem _ (hsub c h1)

theorem ledger_alloc (hsz : Nat) (w : State) (live : List (Nat × Nat)) (n s : Nat) (a : Alloc)
    (h : Ledger hsz w live n s)
    (hok : (m61_malloc hsz a.base_malloc w a.sz a.file a.line).2 ≠ 0)
    (hraw : a.raw hsz < 2 ^ 64)
    (hnew : (m61_malloc hsz a.base_malloc w a.sz a.file a.line).2 ∉ live.map Prod.fst) :
    Ledger hsz (m61_malloc hsz a.base_malloc w a.sz a.file a.line).1
      (live ++ [((m61_malloc hsz a.base_malloc w a.sz a.file a.line).2, a.sz)])
      (n + 1) (s + a.sz) := by
  have hc := malloc_ok_cond hsz a.base_malloc w a.sz a.file a.line hok
  unfold Alloc.raw at hraw
  rw [malloc_ok hsz a.base_malloc w a.sz a.file a.line hc] at hok hnew ⊢
  obtain ⟨h1, h2, h3, h4, h5⟩ := h
  generalize a.base_malloc (wrap (wrap (a.sz + hsz) + 1)) = raw at hraw hok hnew ⊢
  simp only [] at hok hnew ⊢
  have hback : wsub (wrap (raw + hsz)) hsz = raw := wsub_add_cancel hraw
  refine ⟨?_, ?_, ?_, ?_, ?_⟩
  · have key : wrap (w.gstats.ntotal + 1) = (n + 1) % 2 ^ 64 := by
      rw [h1]; unfold wrap; omega
    split_ifs <;> exact key
  · have key : wrap (w.gstats.total_size + a.sz) = (s + a.sz) % 2 ^ 64 := by
      rw [h2]; unfold wrap; omega
    split_ifs <;> exact key
  · have key : wrap (w.gstats.nactive + 1) = (live ++ [(wrap (raw + hsz), a.sz)]).length % 2 ^ 64 := by
      rw [h3, List.length_append, List.length_singleton]; unfold wrap; omega
    split_ifs <;> exact key
  · have key : wrap (w.gstats.active_size + a.sz)
        = liveBytes (live ++ [(wrap (raw + hsz), a.sz)]) % 2 ^ 64 := by
      rw [h4, liveBytes_append_single]; unfold wrap; omega
    split_ifs <;> exact key
  · intro b hb
    rcases List.mem_append.mp hb with hb | hb
    · obtain ⟨k1, k2, k3⟩ := h5 b hb
      refine ⟨k1, k2, ?_⟩
      have hne : wsub b.1 hsz ≠ raw := by
        intro e
        have : b.1 = wrap (raw + hsz) := wsub_inj k2 (wrap_lt_word _) (e.trans hback.symm)
        exact hnew (this ▸ List.mem_map_of_mem Prod.fst hb)
      simp only [if_neg hne]
      exact k3
    · simp only [List.mem_singleton] at hb
      subst hb
      refine ⟨hok, wrap_lt_word _, ?_⟩
      simp only [hback, if_true]

theorem ledger_free (hsz : Nat) (w : State) (live : List (Nat × Nat)) (n s : Nat) (p : Nat)
    (f : String) (l : Int) (w1 : State) (h : Ledger hsz w live n s)
    (hp : p ∈ live.map Prod.fst) (hf : m61_free hsz w p f l = .ret w1 ()) :
    Ledger hsz w1 (removeBlock p live) n s := by
  obtain ⟨h1, h2, h3, h4, h5⟩ := h
  obtain ⟨s0, hs0, hlen, hsum, hsub⟩ := removeBlock_spec p live hp
  obtain ⟨hp0, _, hsz0⟩ := h5 (p, s0) hs0
  simp only [] at hp0 hsz0
  obtain ⟨_, _, _, _, _, l1, _, hw1⟩ := free_ret_inv hsz w p f l w1 hf hp0
  subst hw1
  refine ⟨h1, h2, ?_, ?_, ?_⟩
  · simp only []
    rw [h3]
    unfold wsub
    split_ifs <;> omega
  · simp only []
    rw [h4, hsz0]
    unfold wsub
    split_ifs <;> omega
  · intro b hb
    obtain ⟨k1, k2, k3⟩ := h5 b (hsub b hb)
    refine ⟨k1, k2, ?_⟩
    simp only []
    by_cases he : wsub b.1 hsz = wsub p hsz
    · rw [if_pos he]
      rw [← he]
      exact k3
    · rw [if_neg he]
      exact k3

theorem track_ledger (hsz : Nat) (es : List Event) :
    ∀ (w : State) (live : List (Nat × Nat)) (n s : Nat) (w1 : State) (live1 : List (Nat × Nat)),
      Ledger hsz w live n s → track hsz w live es = some (w1, live1) →
      Ledger hsz w1 live1 (n + (allocSizes es).length) (s + (allocSizes es).sum) ∧
      live1.length + freeCount es = live.length + (allocSizes es).length := by
  induction es with
  | nil =>
    intro w live n s w1 live1 h ht
    simp only [track, Option.some.injEq, Prod.mk.injEq] at ht
    obtain ⟨e1, e2⟩ := ht
    subst e1; subst e2
    exact ⟨h, rfl⟩
  | cons e es ih =>
    intro w live n s w1 live1 h ht
    cases e with
    | alloc a =>
      simp only [track] at ht
      split_ifs at ht with hc
      obtain ⟨hok, hraw, hnew⟩ := hc
      obtain ⟨k1, k2⟩ := ih _ _ (n + 1) (s + a.sz) w1 live1
        (ledger_alloc hsz w live n s a h hok hraw hnew) ht
      simp only [allocSizes, List.length_cons, List.sum_cons, freeCount]
      simp only [List.length_append, List.length_singleton] at k2
      refine ⟨?_, by omega⟩
      have e1 : n + ((allocSizes es).length + 1) = n + 1 + (allocSizes es).length := by omega
      have e2 : s + (a.sz + (allocSizes es).sum) = s + a.sz + (allocSizes es).sum := by omega
      rw [e1, e2]
      exact k1
    | free p f l =>
      simp only [track] at ht
      split_ifs at ht with hc
      cases hr : m61_free hsz w p f l with
      | ret w2 u =>
        rw [hr] at ht
        simp only at ht
        cases u
        obtain ⟨k1, k2⟩ := ih _ _ n s w1 live1 (ledger_free hsz w live n s p f l w2 h hc hr) ht
        obtain ⟨_, _, hlen, _, _⟩ := removeBlock_spec p live hc
        simp only [allocSizes, freeCount]
        exact ⟨k1, by omega⟩
      | abort b2 f2 l2 p2 i =>
        rw [hr] at ht
        simp at ht
      | undefined u =>
        rw [hr] at ht
        simp at ht

theorem ledger_init (hsz : Nat) : Ledger hsz init [] 0 0 :=
  ⟨rfl, rfl, rfl, rfl, fun b hb => absurd hb (List.not_mem_nil b)⟩

/-- C11: run, from process start, a scenario of successful allocations (each
block at a 64-bit raw address, its pointer distinct from the live ones) and of
frees of live pointers that return.  With `n` allocations of sizes `s1..sn` and
`k` frees, `m61_get_statistics` leaves the state as it is and reports
`ntotal = n`, `nactive = n - k`, `total_size = s1 + ... + sn` and
`active_size =` the sum of the sizes of the blocks not yet freed, all as
unsigned 64-bit counters (exact whenever the value is below `2^64`). -/
theorem statistics_after_scenario (hsz : Nat) (es : List Event) (w : State)
    (live : List (Nat × Nat)) (h : track hsz init [] es = some (w, live)) :
    freeCount es ≤ (allocSizes es).length ∧
    live.length = (allocSizes es).length - freeCount es ∧
    (m61_get_statistics w).1 = w ∧
    (m61_get_statistics w).2.ntotal = (allocSizes es).length % 2 ^ 64 ∧
    (m61_get_statistics w).2.nactive = ((allocSizes es).length - freeCount es) % 2 ^ 64 ∧
    (m61_get_statistics w).2.total_size = (allocSizes es).sum % 2 ^ 64 ∧
    (m61_get_statistics w).2.active_size = liveBytes live % 2 ^ 64 ∧
    ((allocSizes es).length < 2 ^ 64 →
      (m61_get_statistics w).2.ntotal = (allocSizes es).length ∧
      (m61_get_statistics w).2.nactive = (allocSizes es).length - freeCount es) ∧
    ((allocSizes es).sum < 2 ^ 64 →
      (m61_get_statistics w).2.total_size = (allocSizes es).sum) ∧
    (liveBytes live < 2 ^ 64 →
      (m61_get_statistics w).2.active_size = liveBytes live) := by
  obtain ⟨⟨h1, h2, h3, h4, _⟩, hcount⟩ := track_ledger hsz es init [] 0 0 w live (ledger_init hsz) h
  simp only [List.length_nil, Nat.zero_add] at hcount h1 h2
  have hk : freeCount es ≤ (allocSizes es).length := by omega
  have hl : live.length = (allocSizes es).length - freeCount es := by omega
  unfold m61_get_statistics
  refine ⟨hk, hl, rfl, h1, ?_, h2, h4, ?_, ?_, ?_⟩
  · rw [← hl]
    exact h3
  · intro hlt
    refine ⟨?_, ?_⟩
    · show w.gstats.ntotal = _
      rw [h1, Nat.mod_eq_of_lt hlt]
    · show w.gstats.nactive = _
      rw [h3, hl, Nat.mod_eq_of_lt (by omega)]
  · intro hlt
    show w.gstats.total_size = _
    rw [h2, Nat.mod_eq_of_lt hlt]
  · intro hlt
    show w.gstats.active_size = _
    rw [h4, Nat.mod_eq_of_lt hlt]

/-- Witness for C11: after `scenario` (two allocations of `8` and `16` bytes, one
free) the statistics are `ntotal = 2`, `nactive = 1`, `total_size = 24`,
`active_size = 16`. -/
theorem statistics_after_scenario_witness :
    track 32 init [] scenario = some (afterScenario, [(8224, 16)]) ∧
    (m61_get_statistics afterScenario).2.ntotal = 2 ∧
    (m61_get_statistics afterScenario).2.nactive = 1 ∧
    (m61_get_statistics afterScenario).2.total_size = 24 ∧
    (m61_get_statistics afterScenario).2.active_size = 16 := by
  have h := statistics_after_scenario 32 scenario afterScenario [(8224, 16)] rfl
  exact ⟨rfl, h.2.2.2.1, h.2.2.2.2.1, h.2.2.2.2.2.1, h.2.2.2.2.2.2.1⟩

/-! ## Binary64 rounding -/

theorem roundEven_intCast (n : ℤ) : roundEven (n : ℚ) = n := by
  unfold roundEven
  rw [Int.floor_intCast, sub_self, if_pos (by norm_num)]

theorem floor_le_roundEven (m : ℚ) : ⌊m⌋ ≤ roundEven m := by
  unfold roundEven
  split_ifs <;> omega

theorem roundEven_le_floor_succ (m : ℚ) : roundEven m ≤ ⌊m⌋ + 1 := by
  unfold roundEven
  split_ifs <;> omega

/-- For an even integer `k`, rounding exceeds `k` exactly above `k + 1/2`. -/
theorem roundEven_gt_even (m : ℚ) (k : ℤ) (hk : k % 2 = 0) :
    k < roundEven m ↔ (k : ℚ) + 1 / 2 < m := by
  have hf1 : (⌊m⌋ : ℚ) ≤ m := Int.floor_le m
  have hf2 : m < (⌊m⌋ : ℚ) + 1 := Int.lt_floor_add_one m
  constructor
  · intro h
    by_contra hle
    push_neg at hle
    -- m ≤ k + 1/2, so the floor is at most k
    have hfk : ⌊m⌋ ≤ k := by
      have : (⌊m⌋ : ℚ) < (k : ℚ) + 1 := by linarith
      have : ⌊m⌋ < k + 1 := by exact_mod_cast this
      omega
    unfold roundEven at h
    split_ifs at h with h1 h2 h3
    · omega
    · have : ⌊m⌋ = k := by omega
      rw [this] at h2
      linarith
    · omega
    · have : ⌊m⌋ = k := by omega
      rw [this] at h3
      exact h3 hk
  · intro h
    have hfk : k ≤ ⌊m⌋ := by
      have : (k : ℚ) < (⌊m⌋ : ℚ) + 1 := by linarith
      have : k < ⌊m⌋ + 1 := by exact_mod_cast this
      omega
    rcases eq_or_lt_of_le hfk with he | hlt
    · unfold roundEven
      rw [← he]
      have h2 : (1 : ℚ) / 2 < m - (k : ℚ) := by linarith
      rw [if_neg (by linarith), if_pos h2]
      omega
    · exact lt_of_lt_of_le hlt (floor_le_roundEven m)

theorem rne_zero : rne 0 = 0 := by
  unfold rne
  rw [if_pos (le_refl 0)]

theorem two_zpow_pos (z : ℤ) : (0 : ℚ) < 2 ^ z := zpow_pos (by norm_num) z

theorem log_bounds (q : ℚ) (hq : 0 < q) :
    (2 : ℚ) ^ Int.log 2 q ≤ q ∧ q < (2 : ℚ) ^ (Int.log 2 q + 1) := by
  have h1 := Int.zpow_log_le_self (b := 2) (r := q) (by norm_num) hq
  have h2 := Int.lt_zpow_succ_log_self (b := 2) (by norm_num) q
  exact ⟨by exact_mod_cast h1, by exact_mod_cast h2⟩

/-- The scaled significand of a positive `q` lies in `[2^52, 2^53)`. -/
theorem scaled_bounds (q : ℚ) (hq : 0 < q) :
    (2 : ℚ) ^ (52 : ℕ) ≤ q / 2 ^ (Int.log 2 q - 52) ∧
    q / 2 ^ (Int.log 2 q - 52) < (2 : ℚ) ^ (53 : ℕ) := by
  obtain ⟨h1, h2⟩ := log_bounds q hq
  have hu := two_zpow_pos (Int.log 2 q - 52)
  have e1 : (2 : ℚ) ^ Int.log 2 q = 2 ^ (52 : ℕ) * 2 ^ (Int.log 2 q - 52) := by
    rw [← zpow_natCast, ← zpow_add₀ (by norm_num : (2 : ℚ) ≠ 0)]
    congr 1
    omega
  have e2 : (2 : ℚ) ^ (Int.log 2 q + 1) = 2 ^ (53 : ℕ) * 2 ^ (Int.log 2 q - 52) := by
    rw [← zpow_natCast, ← zpow_add₀ (by norm_num : (2 : ℚ) ≠ 0)]
    congr 1
    omega
  constructor
  · rw [le_div_iff₀ hu, ← e1]
    exact h1
  · rw [div_lt_iff₀ hu, ← e2]
    exact h2

theorem roundEven_scaled_bounds (q : ℚ) (hq : 0 < q) :
    (2 : ℤ) ^ (52 : ℕ) ≤ roundEven (q / 2 ^ (Int.log 2 q - 52)) ∧
    roundEven (q / 2 ^ (Int.log 2 q - 52)) ≤ (2 : ℤ) ^ (53 : ℕ) := by
  obtain ⟨h1, h2⟩ := scaled_bounds q hq
  have hf1 : (2 : ℤ) ^ (52 : ℕ) ≤ ⌊q / 2 ^ (Int.log 2 q - 52)⌋ := by
    rw [Int.le_floor]
    exact_mod_cast h1
  have hf2 : ⌊q / 2 ^ (Int.log 2 q - 52)⌋ < (2 : ℤ) ^ (53 : ℕ) := by
    rw [Int.floor_lt]
    exact_mod_cast h2
  constructor
  · exact le_trans hf1 (floor_le_roundEven _)
  · have := roundEven_le_floor_succ (q / 2 ^ (Int.log 2 q - 52))
    omega

/-- The rounded value stays in the binade closure `[2^e, 2^(e+1)]` of `q`. -/
theorem rne_bounds (q : ℚ) (hq : 0 < q) :
    (2 : ℚ) ^ Int.log 2 q ≤ rne q ∧ rne q ≤ (2 : ℚ) ^ (Int.log 2 q + 1) := by
  obtain ⟨h1, h2⟩ := roundEven_scaled_bounds q hq
  have hu := two_zpow_pos (Int.log 2 q - 52)
  have e1 : (2 : ℚ) ^ Int.log 2 q = 2 ^ (52 : ℕ) * 2 ^ (Int.log 2 q - 52) := by
    rw [← zpow_natCast, ← zpow_add₀ (by norm_num : (2 : ℚ) ≠ 0)]
    congr 1
    omega
  have e2 : (2 : ℚ) ^ (Int.log 2 q + 1) = 2 ^ (53 : ℕ) * 2 ^ (Int.log 2 q - 52) := by
    rw [← zpow_natCast, ← zpow_add₀ (by norm_num : (2 : ℚ) ≠ 0)]
    congr 1
    omega
  unfold rne
  rw [if_neg (not_le.mpr hq), e1, e2]
  have c1 : ((2 : ℚ) ^ (52 : ℕ)) ≤ (roundEven (q / 2 ^ (Int.log 2 q - 52)) : ℚ) := by
    exact_mod_cast h1
  have c2 : (roundEven (q / 2 ^ (Int.log 2 q - 52)) : ℚ) ≤ (2 : ℚ) ^ (53 : ℕ) := by
    exact_mod_cast h2
  constructor
  · exact mul_le_mul_of_nonneg_right c1 (le_of_lt hu)
  · exact mul_le_mul_of_nonneg_right c2 (le_of_lt hu)

theorem rne_pos (q : ℚ) (hq : 0 < q) : 0 < rne q :=
  lt_of_lt_of_le (two_zpow_pos _) (rne_bounds q hq).1

theorem rne_nonneg (q : ℚ) : 0 ≤ rne q := by
  rcases le_or_lt q 0 with h | h
  · unfold rne
    rw [if_pos h]
  · exact le_of_lt (rne_pos q h)

/-- A value with a significand of at most 53 bits is its own rounding. -/
theorem rne_exact (m : ℕ) (k : ℤ) (hm : m < 2 ^ 53) : rne ((m : ℚ) * 2 ^ k) = (m : ℚ) * 2 ^ k := by
  rcases Nat.eq_zero_or_pos m with h0 | h0
  · subst h0
    simp [rne_zero]
  have hk := two_zpow_pos k
  have hq : (0 : ℚ) < (m : ℚ) * 2 ^ k := mul_pos (by exact_mod_cast h0) hk
  -- the exponent of the value is at most k + 52
  have hlog : Int.log 2 ((m : ℚ) * 2 ^ k) < k + 53 := by
    rw [← Int.lt_zpow_iff_log_lt (by norm_num) hq]
    have e : ((2 : ℕ) : ℚ) ^ (k + 53) = 2 ^ (53 : ℕ) * 2 ^ k := by
      rw [Nat.cast_ofNat, zpow_add₀ (by norm_num : (2 : ℚ) ≠ 0), mul_comm]
      norm_cast
    rw [e]
    have : (m : ℚ) < 2 ^ (53 : ℕ) := by exact_mod_cast hm
    exact mul_lt_mul_of_pos_right this hk
  unfold rne
  rw [if_neg (not_le.mpr hq)]
  generalize Int.log 2 ((m : ℚ) * 2 ^ k) = e at hlog ⊢
  have e1 : (2 : ℚ) ^ k = 2 ^ (k + 52 - e) * 2 ^ (e - 52) := by
    rw [← zpow_add₀ (by norm_num : (2 : ℚ) ≠ 0)]
    congr 1
    omega
  have e2 : (2 : ℚ) ^ (k + 52 - e) = 2 ^ ((k + 52 - e).toNat) := by
    rw [← zpow_natCast]
    congr 1
    omega
  have hscaled : (m : ℚ) * 2 ^ k / 2 ^ (e - 52)
      = (((m : ℤ) * 2 ^ (k + 52 - e).toNat : ℤ) : ℚ) := by
    rw [e1, e2]
    push_cast
    field_simp
    ring
  rw [hscaled, roundEven_intCast, e1, e2]
  push_cast
  ring

theorem rne_natCast (n : ℕ) (hn : n < 2 ^ 53) : rne (n : ℚ) = n := by
  have := rne_exact n 0 hn
  simpa using this

/-- The comparison `percent > 5` on a rounded value: the nearest binary64
values around `5` are `5` and `5 + 2^-50`, and the midpoint rounds to `5`. -/
theorem rne_gt_five (q : ℚ) (hq : 0 < q) : 5 < rne q ↔ 5 + 1 / 2 ^ (51 : ℕ) < q := by
  obtain ⟨hl1, hl2⟩ := log_bounds q hq
  obtain ⟨hr1, hr2⟩ := rne_bounds q hq
  rcases lt_trichotomy (Int.log 2 q) 2 with hlt | heq | hgt
  · -- below 4
    have h4 : (2 : ℚ) ^ (Int.log 2 q + 1) ≤ 2 ^ (2 : ℤ) :=
      zpow_le_zpow_right₀ (by norm_num) (by omega)
    have h4' : (2 : ℚ) ^ (2 : ℤ) = 4 := by norm_num
    constructor
    · intro h
      linarith
    · intro h
      have : (0 : ℚ) < 1 / 2 ^ (51 : ℕ) := by positivity
      linarith
  · -- the binade of 5
    rw [heq] at hl1 hl2
    have hu : (2 : ℚ) ^ ((2 : ℤ) - 52) = 1 / 2 ^ (50 : ℕ) := by
      rw [show ((2 : ℤ) - 52) = -((50 : ℕ) : ℤ) by norm_num, zpow_neg, zpow_natCast]
      norm_num
    unfold rne
    rw [if_neg (not_le.mpr hq), heq, hu]
    have key := roundEven_gt_even (q / (1 / 2 ^ (50 : ℕ))) (5 * 2 ^ (50 : ℕ)) (by norm_num)
    have hpos : (0 : ℚ) < 2 ^ (50 : ℕ) := by positivity
    constructor
    · intro h
      have h1 : ((5 * 2 ^ (50 : ℕ) : ℤ) : ℚ) < (roundEven (q / (1 / 2 ^ (50 : ℕ))) : ℚ) := by
        push_cast
        have := mul_lt_mul_of_pos_right h hpos
        rw [mul_assoc, one_div, inv_mul_cancel₀ (ne_of_gt hpos), mul_one] at this
        linarith
      have h2 : (5 * 2 ^ (50 : ℕ) : ℤ) < roundEven (q / (1 / 2 ^ (50 : ℕ))) := by
        exact_mod_cast h1
      have h3 := key.mp h2
      push_cast at h3
      rw [div_div_eq_mul_div, div_one] at h3
      have e51 : (2 : ℚ) ^ (51 : ℕ) = 2 * 2 ^ (50 : ℕ) := by norm_num
      rw [e51]
      have : (5 + 1 / (2 * 2 ^ (50 : ℕ))) * (2 : ℚ) ^ (50 : ℕ) = 5 * 2 ^ (50 : ℕ) + 1 / 2 := by
        field_simp
        ring
      nlinarith
    · intro h
      have e51 : (2 : ℚ) ^ (51 : ℕ) = 2 * 2 ^ (50 : ℕ) := by norm_num
      rw [e51] at h
      have h3 : ((5 * 2 ^ (50 : ℕ) : ℤ) : ℚ) + 1 / 2 < q / (1 / 2 ^ (50 : ℕ)) := by
        push_cast
        rw [div_div_eq_mul_div, div_one]
        have : (5 + 1 / (2 * 2 ^ (50 : ℕ))) * (2 : ℚ) ^ (50 : ℕ) = 5 * 2 ^ (50 : ℕ) + 1 / 2 := by
          field_simp
          ring
        nlinarith
      have h2 := key.mpr h3
      have h1 : ((5 * 2 ^ (50 : ℕ) : ℤ) : ℚ) < (roundEven (q / (1 / 2 ^ (50 : ℕ))) : ℚ) := by
        exact_mod_cast h2
      push_cast at h1
      have hinv : (0 : ℚ) < 1 / 2 ^ (50 : ℕ) := by positivity
      have h5 : (5 : ℚ) = 5629499534213120 * (1 / 2 ^ (50 : ℕ)) := by norm_num
      calc (5 : ℚ) = 5629499534213120 * (1 / 2 ^ (50 : ℕ)) := h5
        _ < (roundEven (q / (1 / 2 ^ (50 : ℕ))) : ℚ) * (1 / 2 ^ (50 : ℕ)) :=
          mul_lt_mul_of_pos_right h1 hinv
  · -- 8 and above
    have h8 : (2 : ℚ) ^ (3 : ℤ) ≤ 2 ^ Int.log 2 q :=
      zpow_le_zpow_right₀ (by norm_num) (by omega)
    have h8' : (2 : ℚ) ^ (3 : ℤ) = 8 := by norm_num
    have : (1 : ℚ) / 2 ^ (51 : ℕ) ≤ 1 := by
      rw [div_le_one (by positivity)]
      exact one_le_pow₀ (by norm_num)
    constructor
    · intro _
      linarith
    · intro _
      linarith

/-! ## The heavy-hitter report -/

theorem percentOf_zero_total (s : Nat) :
    percentOf s 0 = if s = 0 then Dbl.nan else Dbl.inf := by
  unfold percentOf Dbl.ofNat
  by_cases h : s = 0
  · subst h
    simp [Dbl.mul, Dbl.div, rne_zero]
  · rw [if_neg h]
    have hs : (0 : ℚ) < (s : ℚ) := by exact_mod_cast Nat.pos_of_ne_zero h
    have h1 : (0 : ℚ) < rne (100 * rne (s : ℚ)) :=
      rne_pos _ (mul_pos (by norm_num) (rne_pos _ hs))
    simp only [Dbl.mul, Dbl.div, Nat.cast_zero, rne_zero, if_true]
    rw [if_neg (ne_of_gt h1)]

theorem percentOf_small (s t : Nat) (hs : s < 2 ^ 46) (ht0 : 0 < t) (ht : t < 2 ^ 46) :
    percentOf s t = Dbl.fin (rne ((100 * s : ℕ) / (t : ℚ))) := by
  unfold percentOf Dbl.ofNat
  have h1 : rne (s : ℚ) = s := rne_natCast s (by omega)
  have h2 : rne (t : ℚ) = t := rne_natCast t (by omega)
  have h3 : rne (((100 * s : ℕ)) : ℚ) = ((100 * s : ℕ) : ℚ) := rne_natCast (100 * s) (by omega)
  have ht' : (t : ℚ) ≠ 0 := by exact_mod_cast (Nat.pos_iff_ne_zero.mp ht0)
  simp only [Dbl.mul, Dbl.div, h1, h2]
  rw [show (100 : ℚ) * (s : ℚ) = ((100 * s : ℕ) : ℚ) by push_cast; ring, h3, if_neg ht']

theorem percentOf_gt_small (s t : Nat) (hs : s < 2 ^ 46) (ht0 : 0 < t) (ht : t < 2 ^ 46) :
    (percentOf s t).gt 5 = true ↔ t < 20 * s := by
  rw [percentOf_small s t hs ht0 ht]
  simp only [Dbl.gt, decide_eq_true_eq]
  have htq : (0 : ℚ) < (t : ℚ) := by exact_mod_cast ht0
  rcases Nat.eq_zero_or_pos s with h0 | h0
  · subst h0
    simp only [Nat.mul_zero, Nat.cast_zero, zero_div, rne_zero]
    constructor
    · intro h
      norm_num at h
    · intro h
      omega
  · have hq : (0 : ℚ) < ((100 * s : ℕ) : ℚ) / (t : ℚ) :=
      div_pos (by exact_mod_cast (by omega : 0 < 100 * s)) htq
    rw [rne_gt_five _ hq, lt_div_iff₀ htq]
    have hsmall : (0 : ℚ) < 1 / 2 ^ (51 : ℕ) := by positivity
    constructor
    · intro h
      have h5 : (5 : ℚ) * t < ((100 * s : ℕ) : ℚ) := by nlinarith
      have : 5 * t < 100 * s := by exact_mod_cast h5
      omega
    · intro h
      have h5 : (5 : ℚ) * t + 5 ≤ ((100 * s : ℕ) : ℚ) := by
        have : 5 * t + 5 ≤ 100 * s := by omega
        exact_mod_cast this
      have hb : (t : ℚ) < 2 ^ (46 : ℕ) := by exact_mod_cast ht
      have : (1 : ℚ) / 2 ^ (51 : ℕ) * t < 5 := by
        have e : (1 : ℚ) / 2 ^ (51 : ℕ) * 2 ^ (46 : ℕ) = 1 / 32 := by norm_num
        nlinarith
      nlinarith

theorem hitterOrder_iff (a b : String × Nat) : hitterOrder a b ↔ b.2 ≤ a.2 := by
  unfold hitterOrder compHitters
  simp

theorem sortHitters_perm (t : List (String × Nat)) : (sortHitters t).Perm t :=
  List.perm_insertionSort hitterOrder t

theorem sortHitters_sorted (t : List (String × Nat)) :
    (sortHitters t).Pairwise (fun a b => b.2 ≤ a.2) := by
  have h : (sortHitters t).Sorted hitterOrder := List.sorted_insertionSort hitterOrder t
  exact List.Pairwise.imp (fun {a b} hab => (hitterOrder_iff a b).mp hab) h

theorem intLoop_eq {α : Type} (l : List α) (h : l.length < 2 ^ 31) : intLoop l = l := by
  unfold intLoop
  rw [toInt32_of_lt h, Int.toNat_ofNat, List.take_length]

theorem intLoop_subset {α : Type} (l : List α) (a : α) (h : a ∈ intLoop l) : a ∈ l :=
  List.mem_of_mem_take h

theorem report_small (w : State) (hlen : w.heavyTracker.length < 2 ^ 31)
    (ht0 : 0 < w.gstats.total_size) (ht : w.gstats.total_size < 2 ^ 46)
    (hs : ∀ e ∈ w.heavyTracker, e.2 < 2 ^ 46) :
    m61_print_heavy_hitter_report w
      = ((sortHitters w.heavyTracker).filter
          (fun e => decide (w.gstats.total_size < 20 * e.2))).map
          (fun e => ⟨e.1, toInt32 e.2, percentOf e.2 w.gstats.total_size⟩) := by
  unfold m61_print_heavy_hitter_report hitterLines
  have hl : (sortHitters w.heavyTracker).length < 2 ^ 31 := by
    rw [(sortHitters_perm _).length_eq]
    exact hlen
  rw [intLoop_eq _ hl, List.filter_map]
  congr 1
  apply List.filter_congr
  intro e he
  have hmem : e ∈ w.heavyTracker := (sortHitters_perm _).mem_iff.mp he
  have := percentOf_gt_small e.2 w.gstats.total_size (hs e hmem) ht0 ht
  simp only [Function.comp]
  by_cases hc : w.gstats.total_size < 20 * e.2
  · rw [this.mpr hc]
    simp [hc]
  · have hf : (percentOf e.2 w.gstats.total_size).gt 5 = false := by
      cases hb : (percentOf e.2 w.gstats.total_size).gt 5 with
      | false => rfl
      | true => exact absurd (this.mp hb) hc
    rw [hf]
    simp [hc]

theorem rne_of_binade (q : ℚ) (e : ℤ) (h1 : (2 : ℚ) ^ e ≤ q) (h2 : q < (2 : ℚ) ^ (e + 1)) :
    rne q = (roundEven (q / 2 ^ (e - 52)) : ℚ) * 2 ^ (e - 52) := by
  have hq : 0 < q := lt_of_lt_of_le (two_zpow_pos e) h1
  have hlog : Int.log 2 q = e := by
    have a1 : e ≤ Int.log 2 q := by
      rw [← Int.zpow_le_iff_le_log (by norm_num) hq]
      exact_mod_cast h1
    have a2 : Int.log 2 q < e + 1 := by
      rw [← Int.lt_zpow_iff_log_lt (by norm_num) hq]
      exact_mod_cast h2
    omega
  unfold rne
  rw [if_neg (not_le.mpr hq), hlog]

theorem roundEven_tie_odd (f : ℤ) (hf : f % 2 = 1) : roundEven ((f : ℚ) + 1 / 2) = f + 1 := by
  have hfl : ⌊(f : ℚ) + 1 / 2⌋ = f := by
    rw [Int.floor_eq_iff]
    constructor <;> norm_num
  unfold roundEven
  rw [hfl]
  have e : (f : ℚ) + 1 / 2 - (f : ℚ) = 1 / 2 := by ring
  rw [e, if_neg (lt_irrefl _), if_neg (lt_irrefl _), if_neg (by omega)]

/-- The product `100 * (double) 400000000000003` is a tie between two binary64
values and rounds up, to the even significand. -/
theorem rne_tie_up : rne (100 * 400000000000003) = 40000000000000304 := by
  rw [rne_of_binade (100 * 400000000000003) 55 (by norm_num) (by norm_num)]
  have e1 : (100 * 400000000000003 : ℚ) / 2 ^ ((55 : ℤ) - 52)
      = ((5000000000000037 : ℤ) : ℚ) + 1 / 2 := by norm_num
  rw [e1, roundEven_tie_odd 5000000000000037 (by norm_num)]
  norm_num

theorem percentOf_exactFive :
    (percentOf 400000000000003 8000000000000060).gt 5 = true := by
  unfold percentOf Dbl.ofNat
  have h1 : rne ((400000000000003 : ℕ) : ℚ) = (400000000000003 : ℕ) :=
    rne_natCast _ (by norm_num)
  have h2 : rne ((8000000000000060 : ℕ) : ℚ) = (8000000000000060 : ℕ) :=
    rne_natCast _ (by norm_num)
  simp only [Dbl.mul, Dbl.div, h1, h2]
  rw [if_neg (by norm_num)]
  simp only [Dbl.gt, decide_eq_true_eq]
  have h3 : rne (100 * ((400000000000003 : ℕ) : ℚ)) = 40000000000000304 := by
    rw [show ((400000000000003 : ℕ) : ℚ) = 400000000000003 by norm_num]
    exact rne_tie_up
  rw [h3, rne_gt_five _ (by norm_num)]
  norm_num

/-- C14 (counterexample): (1) after `m61_malloc(2^31, "a.cc", 1)` the report
lists the site with `-2147483648` bytes, not its cumulative `2147483648` bytes;
(2) in `exactFive` the site `a.cc:1` holds exactly `5%` of `total_size`
(`20 * 400000000000003 = 8000000000000060`) and is listed all the same, because
`100 * (double) second` is rounded upwards. -/
theorem report_truncates_and_rounds :
    (bigSite.gstats.total_size = 2 ^ 31 ∧
      bigSite.heavyTracker = [("a.cc:1", 2 ^ 31)] ∧
      m61_print_heavy_hitter_report bigSite = [⟨"a.cc:1", -2147483648, Dbl.fin 100⟩]) ∧
    (exactFive.gstats.total_size = 8000000000000060 ∧
      exactFive.heavyTracker = [("a.cc:1", 400000000000003), ("b.cc:3", 7600000000000057)] ∧
      ¬ (exactFive.gstats.total_size < 20 * 400000000000003) ∧
      ∃ h ∈ m61_print_heavy_hitter_report exactFive, h.site = "a.cc:1") := by
  have b1 : bigSite.gstats.total_size = 2 ^ 31 := by decide
  have b2 : bigSite.heavyTracker = [("a.cc:1", 2 ^ 31)] := by decide
  have x1 : exactFive.gstats.total_size = 8000000000000060 := by decide
  have x2 : exactFive.heavyTracker
      = [("a.cc:1", 400000000000003), ("b.cc:3", 7600000000000057)] := by decide
  refine ⟨⟨b1, b2, ?_⟩, ⟨x1, x2, ?_, ?_⟩⟩
  · have hsmall := report_small bigSite (by rw [b2]; decide) (by rw [b1]; decide)
      (by rw [b1]; decide) (by rw [b2]; decide)
    rw [hsmall, b1, b2]
    have hsrt : sortHitters [("a.cc:1", 2 ^ 31)] = [("a.cc:1", 2 ^ 31)] := by decide
    rw [hsrt]
    have hp : percentOf (2 ^ 31) (2 ^ 31) = Dbl.fin 100 := by
      rw [percentOf_small (2 ^ 31) (2 ^ 31) (by decide) (by decide) (by decide)]
      have : (((100 * 2 ^ 31 : ℕ) : ℚ)) / ((2 ^ 31 : ℕ) : ℚ) = ((100 : ℕ) : ℚ) := by norm_num
      rw [this, rne_natCast 100 (by norm_num)]
      norm_num
    simp only [List.filter_cons, List.filter_nil, List.map_cons, List.map_nil]
    rw [if_pos (by decide)]
    simp only [List.map_cons, List.map_nil, hp]
    congr 1
  · rw [x1]
    decide
  · refine ⟨⟨"a.cc:1", toInt32 400000000000003,
      percentOf 400000000000003 exactFive.gstats.total_size⟩, ?_, rfl⟩
    unfold m61_print_heavy_hitter_report
    rw [List.mem_filter]
    constructor
    · unfold hitterLines
      rw [x2]
      have hsrt : sortHitters [("a.cc:1", 400000000000003), ("b.cc:3", 7600000000000057)]
          = [("b.cc:3", 7600000000000057), ("a.cc:1", 400000000000003)] := by decide
      rw [hsrt, intLoop_eq _ (by decide)]
      simp
    · rw [x1]
      exact percentOf_exactFive

/-- C14 (amended): in a state with fewer than `2^31` call sites, with
`0 < total_size < 2^46` and every site total below `2^46`, the heavy-hitter
report lists exactly the call sites with `20 * siteBytes > total_size`, in
non-increasing order of cumulative bytes; each line carries the site, the
cumulative byte count converted to `int` (the count itself when it is below
`2^31`) and the percentage computed in binary64. -/
theorem heavy_hitter_report_lists (w : State) (hlen : w.heavyTracker.length < 2 ^ 31)
    (ht0 : 0 < w.gstats.total_size) (ht : w.gstats.total_size < 2 ^ 46)
    (hs : ∀ e ∈ w.heavyTracker, e.2 < 2 ^ 46) :
    ∃ l : List (String × Nat),
      l.Perm (w.heavyTracker.filter (fun e => decide (w.gstats.total_size < 20 * e.2))) ∧
      l.Pairwise (fun a b => b.2 ≤ a.2) ∧
      m61_print_heavy_hitter_report w
        = l.map (fun e => ⟨e.1, toInt32 e.2, percentOf e.2 w.gstats.total_size⟩) ∧
      ∀ e ∈ l, e.2 < 2 ^ 31 → toInt32 e.2 = (e.2 : Int) := by
  refine ⟨(sortHitters w.heavyTracker).filter
    (fun e => decide (w.gstats.total_size < 20 * e.2)), ?_, ?_, ?_, ?_⟩
  · exact (sortHitters_perm w.heavyTracker).filter _
  · exact (sortHitters_sorted w.heavyTracker).filter _
  · exact report_small w hlen ht0 ht hs
  · intro e _ he
    exact toInt32_of_lt he

/-- Witness for C14: the state after `m61_malloc(8, "a.cc", 1)` and
`m61_malloc(8, "a.cc", 2)`. -/
theorem heavy_hitter_report_lists_witness :
    afterTwoMallocs.heavyTracker.length < 2 ^ 31 ∧
    0 < afterTwoMallocs.gstats.total_size ∧
    afterTwoMallocs.gstats.total_size < 2 ^ 46 ∧
    ∃ l : List (String × Nat),
      l.Perm (afterTwoMallocs.heavyTracker.filter
        (fun e => decide (afterTwoMallocs.gstats.total_size < 20 * e.2))) ∧
      l.Pairwise (fun a b => b.2 ≤ a.2) ∧
      m61_print_heavy_hitter_report afterTwoMallocs
        = l.map (fun e => ⟨e.1, toInt32 e.2, percentOf e.2 afterTwoMallocs.gstats.total_size⟩) ∧
      ∀ e ∈ l, e.2 < 2 ^ 31 → toInt32 e.2 = (e.2 : Int) :=
  ⟨by decide, by decide, by decide,
    heavy_hitter_report_lists afterTwoMallocs (by decide) (by decide) (by decide) (by decide)⟩

theorem reachable_afterMalloc0 : Reachable 32 afterMalloc0 :=
  Reachable.next init afterMalloc0 (Call.malloc base4096 0 "a.cc" 1) Reachable.start
    ⟨by decide, by decide, fun _ a ha => absurd ha (List.not_mem_nil a)⟩ rfl


/-- C15 (counterexample): (1) after `m61_malloc(0, "a.cc", 1)`, a reachable
state with `total_size == 0`, the report evaluates `100 * 0.0 / 0` for the
site `a.cc:1` (no guard; the quotient is NaN); (2) in the reachable state
`wrappedTotals`, where `total_size` has wrapped to `0`, the report has an
entry for `a.cc:1` (the quotient is infinite). -/
theorem report_divides_by_zero_total :
    (Reachable 32 afterMalloc0 ∧ afterMalloc0.gstats.total_size = 0 ∧
      hitterLines afterMalloc0 = [⟨"a.cc:1", 0, Dbl.nan⟩]) ∧
    (Reachable 32 wrappedTotals ∧ wrappedTotals.gstats.total_size = 0 ∧
      m61_print_heavy_hitter_report wrappedTotals ≠ []) := by
  have a1 : afterMalloc0.gstats.total_size = 0 := by decide
  have a2 : afterMalloc0.heavyTracker = [("a.cc:1", 0)] := by decide
  have w1 : wrappedTotals.gstats.total_size = 0 := by decide
  have w2 : wrappedTotals.heavyTracker = [("a.cc:1", 2 ^ 63), ("b.cc:3", 2 ^ 63)] := by decide
  refine ⟨⟨reachable_afterMalloc0, a1, ?_⟩, ⟨reachable_wrappedTotals, w1, ?_⟩⟩
  · unfold hitterLines
    rw [a1, a2]
    have hsrt : sortHitters [("a.cc:1", 0)] = [("a.cc:1", 0)] := by decide
    rw [hsrt, intLoop_eq _ (by decide)]
    simp only [List.map_cons, List.map_nil, percentOf_zero_total, if_true]
    rfl
  · intro hnil
    have hmem : (⟨"a.cc:1", toInt32 (2 ^ 63), Dbl.inf⟩ : Hitter)
        ∈ m61_print_heavy_hitter_report wrappedTotals := by
      unfold m61_print_heavy_hitter_report
      rw [List.mem_filter]
      refine ⟨?_, rfl⟩
      unfold hitterLines
      rw [w1, w2]
      have hsrt : sortHitters [("a.cc:1", 2 ^ 63), ("b.cc:3", 2 ^ 63)]
          = [("a.cc:1", 2 ^ 63), ("b.cc:3", 2 ^ 63)] := by decide
      rw [hsrt, intLoop_eq _ (by decide)]
      simp only [List.map_cons, List.map_nil, percentOf_zero_total]
      rw [if_neg (by decide)]
      exact List.mem_cons_self _ _
    rw [hnil] at hmem
    exact absurd hmem (List.not_mem_nil _)

/-- C15 (amended): in a reachable state with `total_size == 0` whose call-site
totals have not wrapped (their sum is below `2^64`), the heavy-hitter report
has no entries; the percentage of every call site is nevertheless computed,
with the divisor `0`, and is NaN. -/
theorem report_empty_at_zero_total (hsz : Nat) (w : State) (hw : Reachable hsz w)
    (h0 : w.gstats.total_size = 0) (hsum : tableSum w.heavyTracker < 2 ^ 64) :
    m61_print_heavy_hitter_report w = [] ∧
    (∀ h ∈ hitterLines w, h.percent = Dbl.nan) ∧
    (hitterLines w).length = min w.heavyTracker.length (Int.toNat (toInt32 w.heavyTracker.length)) := by
  have hinv := (tableInv_reachable hsz w hw).2
  rw [Nat.mod_eq_of_lt hsum, h0] at hinv
  have hz : ∀ e ∈ w.heavyTracker, e.2 = 0 := by
    intro e he
    have := le_tableSum_of_mem w.heavyTracker e he
    omega
  have hnan : ∀ h ∈ hitterLines w, h.percent = Dbl.nan := by
    intro h hh
    unfold hitterLines at hh
    rw [List.mem_map] at hh
    obtain ⟨e, he, rfl⟩ := hh
    have hmem : e ∈ w.heavyTracker :=
      (sortHitters_perm _).mem_iff.mp (intLoop_subset _ e he)
    show percentOf e.2 w.gstats.total_size = Dbl.nan
    rw [h0, hz e hmem, percentOf_zero_total, if_pos rfl]
  refine ⟨?_, hnan, ?_⟩
  · unfold m61_print_heavy_hitter_report
    rw [List.filter_eq_nil_iff]
    intro h hh
    rw [hnan h hh]
    decide
  · unfold hitterLines intLoop
    rw [List.length_map, List.length_take, (sortHitters_perm _).length_eq, Nat.min_comm]

/-- Witness for C15: the state after `m61_malloc(0, "a.cc", 1)`. -/
theorem report_empty_at_zero_total_witness :
    Reachable 32 afterMalloc0 ∧ afterMalloc0.gstats.total_size = 0 ∧
    tableSum afterMalloc0.heavyTracker < 2 ^ 64 ∧
    m61_print_heavy_hitter_report afterMalloc0 = [] :=
  ⟨reachable_afterMalloc0, by decide, by decide,
    (report_empty_at_zero_total 32 afterMalloc0 reachable_afterMalloc0
      (by decide) (by decide)).1⟩

end M61
